import Mathlib

set_option maxHeartbeats 1000000

/-!
Verification development for the DAP/CDP debug-adapter bridge
(`packages/vscode-extension/src/debugging/DebugAdapter.ts`).

The TypeScript source is shallowly embedded: pure helpers become Lean
functions, the adapter's mutable fields become an explicit `AdapterState`
record threaded through the request/event handlers, and every outbound
CDP call is recorded in a message trace while its (asynchronous) response
is supplied by an explicit oracle argument.  JavaScript `number` values
used for lines/columns are modelled as `Int`; JS truthiness of the
`x || d` idiom is modelled by dedicated `jsOr*` helpers.
-/

namespace RadonDebugAdapter

/-! ## JavaScript string primitives

The embedding works on `String.data` (the underlying `List Char`) so that
all operations are structurally recursive and kernel-reducible.
Indices count Unicode code points rather than UTF-16 units; the strings
handled by the adapter (URLs, file paths, module markers) are ASCII, where
the two coincide. -/

/-- Is `pat` a substring of `cs`?  Models `String.prototype.includes`. -/
def containsSub (pat : List Char) : List Char → Bool
  | [] => pat.isEmpty
  | c :: rest => pat.isPrefixOf (c :: rest) || containsSub pat rest

/-- `s.includes(pat)` on JS strings. -/
def jsIncludesSubstr (s pat : String) : Bool :=
  containsSub pat.data s.data

/-- Split at the first occurrence of `pat`, returning the pieces before and
after it (with `pat` removed), or `none` when `pat` does not occur. -/
def splitFirstOn (pat : List Char) : List Char → Option (List Char × List Char)
  | [] => if pat.isEmpty then some ([], []) else none
  | c :: rest =>
    if pat.isPrefixOf (c :: rest) then some ([], (c :: rest).drop pat.length)
    else (splitFirstOn pat rest).map (fun pr => (c :: pr.1, pr.2))

/-- Split at every occurrence of the character `sep` (like `s.split(sep)`). -/
def splitAllChar (sep : Char) : List Char → List (List Char)
  | [] => [[]]
  | c :: rest =>
    match splitAllChar sep rest with
    | [] => [[]]
    | seg :: segs => if c = sep then [] :: seg :: segs else (c :: seg) :: segs

/-- `s.startsWith(pre)` on JS strings. -/
def jsStartsWith (s pre : String) : Bool :=
  pre.data.isPrefixOf s.data

/-- `s.slice(n)` on JS strings (drop the first `n` characters). -/
def jsSliceFrom (s : String) (n : Nat) : String :=
  String.mk (s.data.drop n)

/-- Join path segments with `/` separators. -/
def joinWithSlash : List String → String
  | [] => ""
  | [s] => s
  | s :: rest => s ++ "/" ++ joinWithSlash rest

/-- Decimal value of a digit string. -/
def parseDecimal (cs : List Char) : Nat :=
  cs.foldl (fun acc c => acc * 10 + (c.toNat - 48)) 0

/-- Model of `parseInt(s, 10)`: optional sign followed by a maximal digit
prefix.  `NaN` (no digits at all) is collapsed to `0`; every call site in
the adapter either guards the argument with a `^\d+$` match or defaults it
to the string `"0"`, so only decimal strings are in scope. -/
def parseIntJS (s : String) : Int :=
  match s.data with
  | '-' :: rest => - Int.ofNat (parseDecimal (rest.takeWhile Char.isDigit))
  | cs => Int.ofNat (parseDecimal (cs.takeWhile Char.isDigit))

/-- Does `s` match the regular expression `^\d+$`? -/
def isNumericName (s : String) : Bool :=
  !s.data.isEmpty && s.data.all Char.isDigit

/-- JS `x || d` where `x` is a possibly-`undefined` string
(`undefined` and `""` are falsy). -/
def jsOrString : Option String → String → String
  | some s, d => if s = "" then d else s
  | none, d => d

/-- JS `x || d` where `x` is a possibly-`undefined` boolean. -/
def jsOrBool : Option Bool → Bool → Bool
  | some b, d => if b then b else d
  | none, d => d

/-- JS `x || d` where `x` is a possibly-`undefined` number
(`undefined` and `0` are falsy). -/
def jsOrInt : Option Int → Int → Int
  | some v, d => if v = 0 then d else v
  | none, d => d

/-! ## Node `path` module (posix flavour)

Models `path.join`, `path.relative` and `path.resolve` as used by
`toAbsoluteFilePath` / `toSourceMapFilePath`.  Trailing-slash preservation
is not modelled; the file paths in scope carry none. -/

/-- One step of path normalization: push a raw segment onto the processed
segment stack (kept in reverse order). -/
def pushSeg (isAbs : Bool) (stack : List String) (seg : String) : List String :=
  if seg = "" ∨ seg = "." then stack
  else if seg = ".." then
    match stack with
    | [] => if isAbs then [] else [".."]
    | top :: rest => if top = ".." then seg :: stack else rest
  else seg :: stack

/-- Normalize a list of raw path segments (resolving `.` and `..`). -/
def normalizeSegments (isAbs : Bool) (segs : List String) : List String :=
  (segs.foldl (pushSeg isAbs) []).reverse

/-- `path.normalize` for posix paths. -/
def normalizePath (p : String) : String :=
  let isAbs := jsStartsWith p "/"
  let segs := normalizeSegments isAbs ((splitAllChar '/' p.data).map String.mk)
  let body := joinWithSlash segs
  if isAbs then (if body = "" then "/" else "/" ++ body)
  else (if body = "" then "." else body)

/-- `path.join(a, b)` for posix paths. -/
def joinPath (a b : String) : String :=
  if a = "" then (if b = "" then "." else normalizePath b)
  else if b = "" then normalizePath a
  else normalizePath (a ++ "/" ++ b)

/-- Drop the common leading segments of two segment lists. -/
def dropCommonPrefix : List String → List String → List String × List String
  | a :: as, b :: bs =>
    if a = b then dropCommonPrefix as bs else (a :: as, b :: bs)
  | as, bs => (as, bs)

/-- `path.relative(src, dst)` for absolute posix paths. -/
def relativePath (src dst : String) : String :=
  let f := normalizeSegments true ((splitAllChar '/' src.data).map String.mk)
  let t := normalizeSegments true ((splitAllChar '/' dst.data).map String.mk)
  let pr := dropCommonPrefix f t
  joinWithSlash (pr.1.map (fun _ => "..") ++ pr.2)

/-- `path.resolve(p)` for the paths in scope (already absolute after the
joins performed by the adapter): plain normalization. -/
def resolvePath (p : String) : String :=
  normalizePath p

/-! ## WHATWG `URL` and `compareIgnoringHost`

Models `new URL(...)` for the hierarchical `scheme://host[:port]/...`
URLs the adapter sees (bundle URLs reported by metro and by the device).
Opaque-path schemes, userinfo and IPv6 hosts are out of scope and parse
to `none` (matching the `try/catch` that turns a parse failure into a
`false` comparison). -/

structure URLRec where
  scheme : String
  hostname : String
  port : String
  /-- Path, query and fragment, verbatim, starting with `/`. -/
  pathAndRest : String
deriving DecidableEq, Repr

/-- Split `host[:port]`. -/
def parseAuthority (auth : List Char) : Option (String × String) :=
  if auth.isEmpty then none
  else
    match splitFirstOn [':'] auth with
    | some (h, p) => if h.isEmpty then none else some (String.mk h, String.mk p)
    | none => some (String.mk auth, "")

/-- Model of `new URL(s)` restricted to hierarchical URLs. -/
def parseURL (s : String) : Option URLRec :=
  match splitFirstOn "://".data s.data with
  | none => none
  | some (schemeCs, rest) =>
    if schemeCs.isEmpty then none
    else
      match splitFirstOn ['/'] rest with
      | some (auth, pathRest) =>
        (parseAuthority auth).map
          (fun hp => ⟨String.mk schemeCs, hp.1, hp.2, "/" ++ String.mk pathRest⟩)
      | none =>
        (parseAuthority rest).map
          (fun hp => ⟨String.mk schemeCs, hp.1, hp.2, "/"⟩)

/-- `url.href` serialization. -/
def hrefOf (u : URLRec) : String :=
  u.scheme ++ "://" ++ u.hostname ++ (if u.port = "" then "" else ":" ++ u.port)
    ++ u.pathAndRest

/-- `compareIgnoringHost` (DebugAdapter.ts:38): parse both URLs, force
`hostname = "localhost"` and `port = "8080"` on each, and compare the
serializations; a parse failure yields `false`. -/
def compareIgnoringHost (url1 url2 : String) : Bool :=
  match parseURL url1, parseURL url2 with
  | some u1, some u2 =>
    hrefOf { u1 with hostname := "localhost", port := "8080" }
      == hrefOf { u2 with hostname := "localhost", port := "8080" }
  | _, _ => false

/-! ## Source-map consumer

Models the `source-map` library's `SourceMapConsumer` as the list of its
mapping entries.  `originalPositionFor` uses the library's default
`GREATEST_LOWER_BOUND` bias (the nearest mapping at or before the needle
on the same generated line); `generatedPositionFor` is always called by
the adapter with the `LEAST_UPPER_BOUND` bias (the nearest mapping of the
requested source at or after the needle's original position, ties broken
by generated column then generated line, per the library's
`compareByOriginalPositions` order). -/

structure Mapping where
  /-- Generated line, 1-based. -/
  generatedLine : Int
  /-- Generated column, 0-based. -/
  generatedColumn : Int
  /-- Original `(source, line, column)`; `none` for unmapped segments
  (`mapping.source` can be `null`). -/
  original : Option (String × Int × Int)
deriving DecidableEq, Repr

/-- A `SourceMapConsumer`, as its list of mappings. -/
abbrev Consumer := List Mapping

/-- The greatest-lower-bound mapping for a generated position: among the
mappings on generated line `line` with column at most `col`, one with the
largest column (`none` when the line claims nothing at or before `col`). -/
def glbMapping (c : Consumer) (line col : Int) : Option Mapping :=
  match c with
  | [] => none
  | m :: rest =>
    let r := glbMapping rest line col
    if m.generatedLine = line ∧ m.generatedColumn ≤ col then
      match r with
      | none => some m
      | some b => if b.generatedColumn < m.generatedColumn then some m else some b
    else r

/-- Result of `consumer.originalPositionFor` (each field nullable). -/
structure OrigLookup where
  source : Option String
  line : Option Int
  column : Option Int
deriving DecidableEq, Repr

/-- `consumer.originalPositionFor(\x7bline, column\x7d)` with the default
`GREATEST_LOWER_BOUND` bias. -/
def originalPositionFor (c : Consumer) (line col : Int) : OrigLookup :=
  match glbMapping c line col with
  | some m =>
    match m.original with
    | some (src, ol, oc) => ⟨some src, some ol, some oc⟩
    | none => ⟨none, none, none⟩
  | none => ⟨none, none, none⟩

/-- Lexicographic `≤` on `(line, column)` pairs. -/
def lexLE (a b : Int × Int) : Bool :=
  a.1 < b.1 || (a.1 == b.1 && a.2 ≤ b.2)

/-- Original position of a mapping (meaningful only when
`m.original`.isSome). -/
def origPosOf (m : Mapping) : Int × Int :=
  match m.original with
  | some (_, l, c) => (l, c)
  | none => (0, 0)

/-- Strict comparison used to pick the least-upper-bound candidate:
original position first, then generated column, then generated line
(the library's `compareByOriginalPositions`). -/
def lubBefore (m b : Mapping) : Bool :=
  let pm := origPosOf m
  let pb := origPosOf b
  pm.1 < pb.1 ||
    (pm.1 == pb.1 && (pm.2 < pb.2 ||
      (pm.2 == pb.2 && (m.generatedColumn < b.generatedColumn ||
        (m.generatedColumn == b.generatedColumn ∧ m.generatedLine < b.generatedLine)))))

/-- The least-upper-bound mapping for an original position: among the
mappings whose source is `src` and whose original position is at or after
`(line, col)`, the least in the `compareByOriginalPositions` order. -/
def lubOriginal (src : String) (line col : Int) : Consumer → Option Mapping
  | [] => none
  | m :: rest =>
    let r := lubOriginal src line col rest
    match m.original with
    | some (s, ol, oc) =>
      if s = src ∧ lexLE (line, col) (ol, oc) then
        match r with
        | none => some m
        | some b => if lubBefore m b then some m else some b
      else r
    | none => r

/-- `consumer.generatedPositionFor(\x7bsource, line, column, bias:
LEAST_UPPER_BOUND\x7d)`: the generated `(line, column)` of the
least-upper-bound mapping, when any. -/
def generatedPositionFor (c : Consumer) (src : String) (line col : Int) :
    Option (Int × Int) :=
  (lubOriginal src line col c).map (fun m => (m.generatedLine, m.generatedColumn))

/-- The insertion-ordered set of non-null `mapping.source` values built by
`consumer.eachMapping` in `updateBreakpointsInSource`. -/
def uniqueSourceMapPaths (c : Consumer) : List String :=
  c.foldl
    (fun acc m =>
      match m.original with
      | some (s, _, _) => if acc.contains s then acc else acc ++ [s]
      | none => acc)
    []

/-! ## Adapter data model -/

/-- `MyBreakpoint` (DebugAdapter.ts:60): a DAP breakpoint extended with its
requested position and the runtime breakpoint id (`getId()` is `undefined`
until `setId` was called). -/
structure MyBreakpoint where
  line : Int
  column : Option Int
  verified : Bool
  id : Option Int
deriving DecidableEq, Repr

/-- One entry of `this.sourceMaps`:
`[url, scriptId, consumer, lineOffset]`. -/
structure SourceMapEntry where
  url : String
  scriptId : String
  consumer : Consumer
  lineOffset : Int

/-- The adapter's mutable fields relevant to breakpoints, position
translation and the CDP correlation map. -/
structure AdapterState where
  sourceMapAliases : Option (List (String × String))
  expoPreludeLineCount : Int
  sourceMaps : List SourceMapEntry
  /-- `this.breakpoints : Map<string, Array<MyBreakpoint>>`, as an
  insertion-ordered association list. -/
  breakpoints : List (String × List MyBreakpoint)
  linesStartAt1 : Bool
  columnsStartAt1 : Bool
  cdpMessageId : Nat
  /-- Ids of the in-flight requests in `this.cdpMessagePromises`. -/
  cdpMessagePromises : List Nat

/-- A DAP `SourceBreakpoint` (`args.breakpoints` entry). -/
structure SourceBreakpoint where
  line : Int
  column : Option Int
deriving DecidableEq, Repr

/-- Outbound CDP requests recorded by the embedding. -/
inductive CDPMsg where
  | removeBreakpoint (breakpointId : Option Int)
  | setBreakpointByUrl (url : String) (lineNumber : Int) (columnNumber : Int)
  | evaluate (expression : String)
deriving DecidableEq, Repr

/-- Response oracle for `Debugger.setBreakpointByUrl`: maps the request's
`(url, lineNumber, columnNumber)` to the returned `breakpointId`
(`none` models a response without a `breakpointId`). -/
def Oracle := String → Int → Int → Option Int

/-- `Map.get` on the association-list model. -/
def mapGet (m : List (String × List MyBreakpoint)) (k : String) :
    Option (List MyBreakpoint) :=
  (m.find? (fun p => p.1 == k)).map (fun p => p.2)

/-- `Map.set` on the association-list model (replace in place, or append
a new entry). -/
def mapSet (m : List (String × List MyBreakpoint)) (k : String)
    (v : List MyBreakpoint) : List (String × List MyBreakpoint) :=
  if (m.find? (fun p => p.1 == k)).isSome
  then m.map (fun p => if p.1 == k then (k, v) else p)
  else m ++ [(k, v)]

/-! ## Position translation -/

/-- `toAbsoluteFilePath` (DebugAdapter.ts:302): replace the first matching
alias prefix with its absolute filesystem prefix and resolve the result;
the input is returned unchanged when no alias matches. -/
def toAbsoluteFilePath (aliases : Option (List (String × String)))
    (sourceMapPath : String) : String :=
  match aliases with
  | some al =>
    match al.find? (fun p => jsStartsWith sourceMapPath p.1) with
    | some p =>
      resolvePath (joinPath p.2 (jsSliceFrom sourceMapPath p.1.data.length))
    | none => sourceMapPath
  | none => sourceMapPath

/-- Loop body of `toSourceMapFilePath` (DebugAdapter.ts:314), transcribed
with its guard as written in the source:
`absoluteFilePath.startsWith(absoluteFilePath)`. -/
def toSourceMapFilePathLoop : List (String × String) → String → String
  | [], sourceAbsoluteFilePath => sourceAbsoluteFilePath
  | (alias0, absoluteFilePath) :: rest, sourceAbsoluteFilePath =>
    if jsStartsWith absoluteFilePath absoluteFilePath then
      joinPath alias0 (relativePath absoluteFilePath sourceAbsoluteFilePath)
    else toSourceMapFilePathLoop rest sourceAbsoluteFilePath

/-- `toSourceMapFilePath` (DebugAdapter.ts:314). -/
def toSourceMapFilePath (aliases : Option (List (String × String)))
    (sourceAbsoluteFilePath : String) : String :=
  match aliases with
  | some al => toSourceMapFilePathLoop al sourceAbsoluteFilePath
  | none => sourceAbsoluteFilePath

/-- Accumulator of the `forEach` in `findOriginalPosition`
(the four local variables mutated by the loop). -/
structure FOPAcc where
  scriptURL : String
  sourceURL : String
  line : Int
  column : Int
deriving DecidableEq, Repr

/-- Result record of `findOriginalPosition`. -/
structure OriginalPositionResult where
  sourceURL : String
  lineNumber1Based : Int
  columnNumber0Based : Int
  scriptURL : String
deriving DecidableEq, Repr

/-- `findOriginalPosition` (DebugAdapter.ts:326): scan all registered
source maps; a map matches when its script id equals the query or
`compareIgnoringHost` accepts its URL; on a match, consult the consumer at
the query line minus the map's line offset and overwrite each non-null
field.  The `__script__` / `__source__` sentinels survive when nothing
matches. -/
def findOriginalPosition (st : AdapterState) (scriptIdOrURL : String)
    (lineNumber1Based columnNumber0Based : Int) : OriginalPositionResult :=
  let r := st.sourceMaps.foldl
    (fun (acc : FOPAcc) e =>
      if e.scriptId == scriptIdOrURL || compareIgnoringHost e.url scriptIdOrURL then
        let pos := originalPositionFor e.consumer
          (lineNumber1Based - e.lineOffset) columnNumber0Based
        { scriptURL := e.url
          sourceURL := pos.source.getD acc.sourceURL
          line := pos.line.getD acc.line
          column := pos.column.getD acc.column }
      else acc)
    ⟨"__script__", "__source__", lineNumber1Based, columnNumber0Based⟩
  ⟨toAbsoluteFilePath st.sourceMapAliases r.sourceURL, r.line, r.column, r.scriptURL⟩

/-- Result record of `toGeneratedPosition`. -/
structure GeneratedPositionResult where
  source : String
  lineNumber1Based : Int
  columnNumber0Based : Int
deriving DecidableEq, Repr

/-- `toGeneratedPosition` (DebugAdapter.ts:498): resolve the file through
the alias rules once, query every registered map with the
`LEAST_UPPER_BOUND` bias, and keep the last map that yields a position,
adding that map's line offset back; `none` when no map yields one. -/
def toGeneratedPosition (st : AdapterState) (file : String)
    (lineNumber1Based columnNumber0Based : Int) : Option GeneratedPositionResult :=
  let sourceMapFilePath := toSourceMapFilePath st.sourceMapAliases file
  let r := st.sourceMaps.foldl
    (fun (acc : Option (String × Int × Int)) e =>
      match generatedPositionFor e.consumer sourceMapFilePath
          lineNumber1Based columnNumber0Based with
      | some (gl, gc) => some (e.url, gl + e.lineOffset, gc)
      | none => acc)
    none
  r.map (fun p => ⟨p.1, p.2.1, p.2.2⟩)

/-! ## Breakpoint machinery

The CDP request/response round trips are modelled by recording the
outbound request in a `CDPMsg` trace and reading the response from the
`Oracle`; a rejected CDP promise (which would abort the surrounding
handler) is outside the model. -/

/-- `setCDPBreakpoint` (DebugAdapter.ts:524): translate to a generated
position; when that succeeds, issue `Debugger.setBreakpointByUrl` (CDP
coordinates are 0-based) and return the `breakpointId` of the response,
`null` otherwise. -/
def setCDPBreakpoint (st : AdapterState) (oracle : Oracle) (file : String)
    (line column : Int) : Option Int × List CDPMsg :=
  match toGeneratedPosition st file line column with
  | some generatedPos =>
    let l0 := generatedPos.lineNumber1Based - 1
    let c0 := generatedPos.columnNumber0Based
    (oracle generatedPos.source l0 c0,
     [CDPMsg.setBreakpointByUrl generatedPos.source l0 c0])
  | none => (none, [])

/-- The `(line, column)` identity comparison used by both the reuse
lookup and the stale-removal lookup of `setBreakPointsRequest`
(`bp.line === x && bp.column === y`). -/
def matchesPosition (line : Int) (column : Option Int) (bp : MyBreakpoint) : Bool :=
  bp.line == line && bp.column == column

/-- The breakpoint-list construction of `setBreakPointsRequest`
(DebugAdapter.ts:583): reuse the previous breakpoint with the same
`(line, column)` when one exists, otherwise create a fresh unverified
breakpoint. -/
def mergeWithPrevious (previousBreakpoints : List MyBreakpoint)
    (reqs : List SourceBreakpoint) : List MyBreakpoint :=
  reqs.map (fun bp =>
    match previousBreakpoints.find? (matchesPosition bp.line bp.column) with
    | some prevBp => prevBp
    | none => ⟨bp.line, bp.column, false, none⟩)

/-- The stale-breakpoint removal of `setBreakPointsRequest`
(DebugAdapter.ts:595): a `Debugger.removeBreakpoint` for every previously
stored breakpoint that is verified and has no positional counterpart in
the new list. -/
def staleRemovalMessages (previousBreakpoints newBreakpoints : List MyBreakpoint) :
    List CDPMsg :=
  previousBreakpoints.filterMap (fun bp =>
    if bp.verified && (newBreakpoints.find? (matchesPosition bp.line bp.column)).isNone
    then some (CDPMsg.removeBreakpoint bp.id)
    else none)

/-- The resolution step of `setBreakPointsRequest` (DebugAdapter.ts:607):
an already-verified breakpoint is returned as is; otherwise
`setCDPBreakpoint` is attempted and, on success, the breakpoint becomes
verified with the returned id. -/
def resolveBreakpoint (st : AdapterState) (oracle : Oracle) (sourcePath : String)
    (bp : MyBreakpoint) : MyBreakpoint × List CDPMsg :=
  if bp.verified then (bp, [])
  else
    match setCDPBreakpoint st oracle sourcePath bp.line (jsOrInt bp.column 0) with
    | (some breakpointId, msgs) =>
      ({ bp with verified := true, id := some breakpointId }, msgs)
    | (none, msgs) => (bp, msgs)

/-- `setBreakPointsRequest` (DebugAdapter.ts:575).  Returns the new state,
the trace of CDP requests, and the `resolvedBreakpoints` sent back in the
response body.  The stored array is the one mutated in place by the
resolution step, so the map ends up holding the resolved breakpoints. -/
def setBreakPointsRequest (st : AdapterState) (oracle : Oracle)
    (sourcePath : String) (reqBreakpoints : Option (List SourceBreakpoint)) :
    AdapterState × List CDPMsg × List MyBreakpoint :=
  let previousBreakpoints := (mapGet st.breakpoints sourcePath).getD []
  let breakpoints := mergeWithPrevious previousBreakpoints (reqBreakpoints.getD [])
  let removeMsgs := staleRemovalMessages previousBreakpoints breakpoints
  let resolvedPairs := breakpoints.map (resolveBreakpoint st oracle sourcePath)
  let resolvedBreakpoints := resolvedPairs.map (fun p => p.1)
  ({ st with breakpoints := mapSet st.breakpoints sourcePath resolvedBreakpoints },
   removeMsgs ++ resolvedPairs.flatMap (fun p => p.2),
   resolvedBreakpoints)

/-- Per-breakpoint body of the `forEach` in `updateBreakpointsInSource`
(DebugAdapter.ts:556): remove the old runtime breakpoint when verified,
then re-run `setCDPBreakpoint` at the breakpoint's (adjusted) position;
success stores the new id and marks verified, failure marks unverified. -/
def rebindBreakpoint (st : AdapterState) (oracle : Oracle) (sourceMapPath : String)
    (bp : MyBreakpoint) : MyBreakpoint × List CDPMsg :=
  let removeMsgs :=
    if bp.verified then [CDPMsg.removeBreakpoint bp.id] else []
  let r := setCDPBreakpoint st oracle sourceMapPath
    (if st.linesStartAt1 then bp.line else bp.line + 1)
    (if st.columnsStartAt1 then jsOrInt bp.column 1 - 1 else jsOrInt bp.column 0)
  match r with
  | (some newId, setMsgs) =>
    ({ bp with id := some newId, verified := true }, removeMsgs ++ setMsgs)
  | (none, setMsgs) =>
    ({ bp with verified := false }, removeMsgs ++ setMsgs)

/-- One iteration of the `uniqueSourceMapPaths.forEach` loop of
`updateBreakpointsInSource` (DebugAdapter.ts:553): look up the tracked
breakpoints of the source's absolute file path and rebind each of them
(a path with no tracked breakpoints leaves the state untouched, as the
`|| []` default makes the loop body a no-op). -/
def updateBreakpointsStep (oracle : Oracle) (acc : AdapterState × List CDPMsg)
    (sourceMapPath : String) : AdapterState × List CDPMsg :=
  let st1 := acc.1
  let absoluteFilePath := toAbsoluteFilePath st1.sourceMapAliases sourceMapPath
  match mapGet st1.breakpoints absoluteFilePath with
  | some bps =>
    let pairs := bps.map (rebindBreakpoint st1 oracle sourceMapPath)
    let newBps := pairs.map (fun p => p.1)
    ({ st1 with breakpoints := mapSet st1.breakpoints absoluteFilePath newBps },
     acc.2 ++ pairs.flatMap (fun p => p.2))
  | none => acc

/-- `updateBreakpointsInSource` (DebugAdapter.ts:543): for every unique
original source of the freshly parsed script's map, rebind every tracked
breakpoint of the corresponding absolute file path. -/
def updateBreakpointsInSource (st : AdapterState) (oracle : Oracle)
    (consumer : Consumer) : AdapterState × List CDPMsg :=
  (uniqueSourceMapPaths consumer).foldl (updateBreakpointsStep oracle) (st, [])

/-- The decoded inline source map carried by a `Debugger.scriptParsed`
event (the base64 `data:` URL decoding and `SourceMapConsumer`
construction are performed by the host libraries and elided here). -/
structure ParsedSourceMap where
  sources : List String
  consumer : Consumer

/-- The `lineOffset` computation of the `Debugger.scriptParsed` handler
(DebugAdapter.ts:150): the offset is the configured
`expoPreludeLineCount` exactly in the main-bundle-without-`__env__` case
with a positive configured count, and `0` otherwise. -/
def computeLineOffset (sources : List String) (expoPreludeLineCount : Int) : Int :=
  let isMainBundle := sources.any (fun source => jsIncludesSubstr source "__prelude__")
  let bundleContainsExpoPrelude := sources.contains "__env__"
  if isMainBundle && !bundleContainsExpoPrelude && decide (expoPreludeLineCount > 0)
  then expoPreludeLineCount
  else 0

/-- The `Debugger.scriptParsed` branch of the connection message handler
(DebugAdapter.ts:141): when the event carries an inline source map, push
the `[url, scriptId, consumer, lineOffset]` tuple and re-resolve
breakpoints; the main-bundle detection also triggers a
`Runtime.evaluate` of the debugger-ready hook. -/
def handleScriptParsed (st : AdapterState) (oracle : Oracle) (url scriptId : String)
    (sourceMap : Option ParsedSourceMap) : AdapterState × List CDPMsg :=
  match sourceMap with
  | some sm =>
    let isMainBundle := sm.sources.any (fun source => jsIncludesSubstr source "__prelude__")
    let readyMsgs :=
      if isMainBundle then [CDPMsg.evaluate "__RNIDE_onDebuggerReady()"] else []
    let lineOffset := computeLineOffset sm.sources st.expoPreludeLineCount
    let st1 := { st with sourceMaps :=
      st.sourceMaps ++ [⟨url, scriptId, sm.consumer, lineOffset⟩] }
    let r := updateBreakpointsInSource st1 oracle sm.consumer
    (r.1, readyMsgs ++ r.2)
  | none => (st, [])

/-! ## Event sequences over the breakpoint state -/

/-- The two operations that touch the breakpoint store: an editor
`setBreakpoints` request and a `Debugger.scriptParsed` event.  Each
carries the oracle answering its CDP round trips. -/
inductive AdapterEvent where
  | setBPs (oracle : Oracle) (sourcePath : String)
      (reqs : Option (List SourceBreakpoint))
  | scriptParsed (oracle : Oracle) (url scriptId : String)
      (sourceMap : Option ParsedSourceMap)

/-- State transition of one event. -/
def stepEvent (st : AdapterState) (ev : AdapterEvent) : AdapterState :=
  match ev with
  | .setBPs oracle sourcePath reqs => (setBreakPointsRequest st oracle sourcePath reqs).1
  | .scriptParsed oracle url scriptId sm => (handleScriptParsed st oracle url scriptId sm).1

/-- Run a sequence of events. -/
def runEvents (st : AdapterState) (evs : List AdapterEvent) : AdapterState :=
  evs.foldl stepEvent st

/-- The adapter state right after the constructor
(DebugAdapter.ts:93): empty collections, 1-based lines and columns. -/
def initialState (aliases : Option (List (String × String)))
    (expoPreludeLineCount : Int) : AdapterState :=
  { sourceMapAliases := aliases
    expoPreludeLineCount := expoPreludeLineCount
    sourceMaps := []
    breakpoints := []
    linesStartAt1 := true
    columnsStartAt1 := true
    cdpMessageId := 0
    cdpMessagePromises := [] }

/-! ## `initializeRequest` -/

/-- The two capability fields of `InitializeRequestArguments` the adapter
reads (`undefined` when the client omits them). -/
structure InitializeRequestArguments where
  linesStartAt1 : Option Bool
  columnsStartAt1 : Option Bool

/-- `initializeRequest` (DebugAdapter.ts:477):
`this.linesStartAt1 = args.linesStartAt1 || true` and likewise for
columns. -/
def initializeRequest (st : AdapterState) (args : InitializeRequestArguments) :
    AdapterState :=
  { st with
    linesStartAt1 := jsOrBool args.linesStartAt1 true
    columnsStartAt1 := jsOrBool args.columnsStartAt1 true }

/-! ## CDP request/response correlation -/

/-- Shallow JSON values (the payloads carried by CDP responses). -/
inductive JVal where
  | str (s : String)
  | num (n : Int)
deriving DecidableEq, Repr

/-- A shallow JSON object as an association list; the first binding of a
key is its value. -/
abbrev JObj := List (String × JVal)

/-- Property lookup on a `JObj`. -/
def getField (o : JObj) (k : String) : Option JVal :=
  (o.find? (fun p => p.1 == k)).map (fun p => p.2)

/-- `Object.assign(target, src)`: the result holds every field of `src`,
and the fields of `target` that `src` does not override. -/
def objAssign (target src : JObj) : JObj :=
  src ++ target

/-- The own enumerable fields of a fresh `new Error()` (message and a
captured stack trace, both runtime-supplied; modelled as empty). -/
def newErrorObj : JObj :=
  [("message", JVal.str ""), ("stack", JVal.str "")]

/-- Settlements performed on the DAP-side futures of correlated CDP
requests. -/
inductive DapAction where
  | resolvePromise (id : Nat) (result : JObj)
  | rejectPromise (id : Nat) (error : JObj)
deriving DecidableEq, Repr

/-- The `message.result || message.error` branch of the connection
message handler (DebugAdapter.ts:118): look up the pending entry, delete
it, and resolve with the result or reject with a `new Error()` carrying
every CDP-provided error field; a message with neither payload falls
through to the event dispatch and leaves the correlation map alone. -/
def handleResponseMessage (pending : List Nat) (id : Nat)
    (result err : Option JObj) : List Nat × List DapAction :=
  if result.isSome || err.isSome then
    let found := pending.contains id
    let pending1 := pending.filter (fun j => j != id)
    match result with
    | some r => (pending1, if found then [DapAction.resolvePromise id r] else [])
    | none =>
      match err with
      | some e =>
        (pending1,
         if found then [DapAction.rejectPromise id (objAssign newErrorObj e)] else [])
      | none => (pending1, [])
  else (pending, [])

/-- The correlation bookkeeping of `sendCDPMessage` (DebugAdapter.ts:465):
a strictly increasing id is assigned and a pending entry stored. -/
def sendCDPMessage (st : AdapterState) : AdapterState × Nat :=
  let id := st.cdpMessageId + 1
  ({ st with cdpMessageId := id, cdpMessagePromises := st.cdpMessagePromises ++ [id] },
   id)

/-! ## Synthesized-exception stack reconstruction -/

/-- The DAP `StackFrame` fields built by `handleDebuggerPaused`. -/
structure StackFrameModel where
  index : Nat
  name : String
  /-- `new Source(scriptURL, sourceURL)`, or `undefined` when the resolved
  `sourceURL` is falsy. -/
  source : Option (String × String)
  line : Int
  column : Int
deriving DecidableEq, Repr

/-- Build one synthetic frame from the resolved properties of a numeric
stack entry (DebugAdapter.ts:414): extract `methodName`, `file`,
`lineNumber` and `column` (values are the strings produced by the
variable store), translate the position, and assemble the frame. -/
def buildExceptionStackFrame (st : AdapterState) (index : Nat)
    (props : List (String × String)) : StackFrameModel :=
  let valueOf := fun (key : String) =>
    ((props.find? (fun p => p.1 == key)).map (fun p => p.2))
  let methodName := jsOrString (valueOf "methodName") ""
  let genUrl := jsOrString (valueOf "file") ""
  let genLine1Based := parseIntJS (jsOrString (valueOf "lineNumber") "0")
  let genColumn1Based := parseIntJS (jsOrString (valueOf "column") "0")
  let r := findOriginalPosition st genUrl genLine1Based (genColumn1Based - 1)
  { index := index
    name := methodName
    source := if r.sourceURL = "" then none else some (r.scriptURL, r.sourceURL)
    line := if st.linesStartAt1 then r.lineNumber1Based else r.lineNumber1Based - 1
    column := if st.columnsStartAt1 then r.columnNumber0Based + 1 else r.columnNumber0Based }

/-- Sparse JavaScript-array assignment `arr[i] = v`: holes (`none`) appear
when `i` lies beyond the current length, and the length grows to `i + 1`
only when needed. -/
def setSparse (arr : List (Option α)) (i : Nat) (v : α) : List (Option α) :=
  if i < arr.length then arr.set i (some v)
  else arr ++ List.replicate (i - arr.length) none ++ [some v]

/-- The synthesized-exception stack construction (DebugAdapter.ts:401):
each resolvable entry of the local-scope `stack` object whose name
matches `^\d+$` produces a frame stored at the index parsed from that
name (`stackFrames[index] = new StackFrame(index, ...)`); entries are
given with the property lists their variable-store resolution yields. -/
def buildPausedStackFrames (st : AdapterState)
    (stackObjectProperties : List (String × List (String × String))) :
    List (Option StackFrameModel) :=
  stackObjectProperties.foldl
    (fun arr entry =>
      if isNumericName entry.1 then
        let index := parseDecimal entry.1.data
        setSparse arr index (buildExceptionStackFrame st index entry.2)
      else arr)
    []

/-! ## Helper lemmas -/

theorem jsOrBool_default_true (x : Option Bool) : jsOrBool x true = true := by
  cases x with
  | none => rfl
  | some b => cases b <;> rfl

theorem isPrefixOf_self (l : List Char) : l.isPrefixOf l = true := by
  induction l with
  | nil => rfl
  | cons c cs ih => simp [List.isPrefixOf, ih]

theorem jsStartsWith_self (s : String) : jsStartsWith s s = true :=
  isPrefixOf_self s.data

/-- The state reached by `updateBreakpointsStep` differs from the
incoming state only in the `breakpoints` field, and its message trace
only grows. -/
theorem updateBreakpointsStep_shape (oracle : Oracle)
    (acc : AdapterState × List CDPMsg) (p : String) :
    ∃ b extra, updateBreakpointsStep oracle acc p =
      ({ acc.1 with breakpoints := b }, acc.2 ++ extra) := by
  unfold updateBreakpointsStep
  rcases h : mapGet acc.1.breakpoints (toAbsoluteFilePath acc.1.sourceMapAliases p)
    with _ | bps
  · refine ⟨acc.1.breakpoints, [], ?_⟩
    simp only [h]
    simp
  · exact ⟨mapSet acc.1.breakpoints (toAbsoluteFilePath acc.1.sourceMapAliases p)
        ((bps.map (rebindBreakpoint acc.1 oracle p)).map (fun q => q.1)),
      (bps.map (rebindBreakpoint acc.1 oracle p)).flatMap (fun q => q.2),
      by simp only [h]⟩

/-- The whole `updateBreakpointsInSource` fold differs from the incoming
state only in the `breakpoints` field, and its message trace only
grows. -/
theorem updateBreakpointsFold_shape (oracle : Oracle) :
    ∀ (paths : List String) (acc : AdapterState × List CDPMsg),
      ∃ b extra, paths.foldl (updateBreakpointsStep oracle) acc =
        ({ acc.1 with breakpoints := b }, acc.2 ++ extra) := by
  intro paths
  induction paths with
  | nil =>
    intro acc
    exact ⟨acc.1.breakpoints, [], by simp⟩
  | cons p ps ih =>
    intro acc
    obtain ⟨b1, e1, h1⟩ := updateBreakpointsStep_shape oracle acc p
    obtain ⟨b2, e2, h2⟩ := ih (updateBreakpointsStep oracle acc p)
    refine ⟨b2, e1 ++ e2, ?_⟩
    rw [List.foldl_cons, h2, h1]
    simp

theorem updateBreakpointsInSource_sourceMaps (st : AdapterState) (oracle : Oracle)
    (c : Consumer) :
    (updateBreakpointsInSource st oracle c).1.sourceMaps = st.sourceMaps := by
  obtain ⟨b, extra, h⟩ :=
    updateBreakpointsFold_shape oracle (uniqueSourceMapPaths c) (st, [])
  rw [updateBreakpointsInSource, h]

/-! ## C9 -/

/-- C9: after `initializeRequest` runs with any arguments — including
ones where `linesStartAt1` or `columnsStartAt1` is explicitly `false` —
both fields are `true`, because `args.linesStartAt1 || true` and
`args.columnsStartAt1 || true` always evaluate to `true`; hence every
`this.linesStartAt1 ? a : b` adjustment in the adapter takes the 1-based
branch. -/
theorem c9_initializeRequest_always_one_based (st : AdapterState)
    (args : InitializeRequestArguments) :
    (initializeRequest st args).linesStartAt1 = true ∧
    (initializeRequest st args).columnsStartAt1 = true ∧
    jsOrBool args.linesStartAt1 true = true ∧
    jsOrBool args.columnsStartAt1 true = true :=
  ⟨jsOrBool_default_true _, jsOrBool_default_true _,
   jsOrBool_default_true _, jsOrBool_default_true _⟩

/-! ## C3 -/

/-- C3: registering a source map from a script-parsed event stores a
`lineOffset` equal to the configured `expoPreludeLineCount` exactly when
the map is the main bundle (some source contains `__prelude__`), its
sources do not include `__env__`, and the configured count is positive;
in every other case the stored `lineOffset` is `0`. -/
theorem c3_scriptParsed_lineOffset (st : AdapterState) (oracle : Oracle)
    (url scriptId : String) (sm : ParsedSourceMap) :
    ∃ entry : SourceMapEntry,
      ((handleScriptParsed st oracle url scriptId (some sm)).1).sourceMaps.getLast?
        = some entry ∧
      entry.url = url ∧ entry.scriptId = scriptId ∧ entry.consumer = sm.consumer ∧
      ((sm.sources.any (fun s => jsIncludesSubstr s "__prelude__") = true ∧
          sm.sources.contains "__env__" = false ∧ st.expoPreludeLineCount > 0) →
        entry.lineOffset = st.expoPreludeLineCount) ∧
      (¬ (sm.sources.any (fun s => jsIncludesSubstr s "__prelude__") = true ∧
          sm.sources.contains "__env__" = false ∧ st.expoPreludeLineCount > 0) →
        entry.lineOffset = 0) := by
  refine ⟨⟨url, scriptId, sm.consumer, computeLineOffset sm.sources st.expoPreludeLineCount⟩,
    ?_, rfl, rfl, rfl, ?_, ?_⟩
  · show (updateBreakpointsInSource _ oracle sm.consumer).1.sourceMaps.getLast? = _
    rw [updateBreakpointsInSource_sourceMaps]
    simp
  · intro h
    have hc : (sm.sources.any (fun s => jsIncludesSubstr s "__prelude__") &&
        !sm.sources.contains "__env__" && decide (st.expoPreludeLineCount > 0)) = true := by
      rw [h.1, h.2.1]
      simp [h.2.2]
    unfold computeLineOffset
    rw [if_pos hc]
  · intro h
    unfold computeLineOffset
    rw [if_neg]
    intro hcond
    simp only [Bool.and_eq_true, Bool.not_eq_true', decide_eq_true_eq] at hcond
    exact h ⟨hcond.1.1, hcond.1.2, hcond.2⟩

/-! ## C10 -/

/-- C10 (amended): whenever the configured `sourceMapAliases` list is
non-empty, `toSourceMapFilePath` applies the first alias pair to every
input path — its guard compares the pair's absolute prefix with itself
and is therefore always true — so the resolution never consults later
alias pairs and never takes the unchanged-input fallback branch.  (The
original claim's further conjunct "never returns the input unchanged" is
refuted by `c10_counterexample`: the first-pair rewrite can coincide with
the input.) -/
theorem c10_first_alias_always_applied (alias0 abs0 : String)
    (rest : List (String × String)) (input : String) :
    toSourceMapFilePath (some ((alias0, abs0) :: rest)) input =
      joinPath alias0 (relativePath abs0 input) := by
  unfold toSourceMapFilePath toSourceMapFilePathLoop
  rw [if_pos (jsStartsWith_self abs0)]

/-- C10 counterexample: with the non-empty alias configuration
`[("/a", "/a/b")]`, the input `"/x"` — which does not lie under the
first pair's filesystem prefix — is mapped to
`join("/a", relative("/a/b", "/x")) = "/x"`, i.e. the function returns
the input unchanged, contradicting the claim's "never returns the input
unchanged". -/
theorem c10_counterexample :
    toSourceMapFilePath (some [("/a", "/a/b")]) "/x" = "/x" := by decide

/-! ## C6 -/

/-- C6: in the synthesized-exception pause path, each stack entry is
written at the index parsed from its numeric property name: with
resolvable entries only at keys "0" and "2", the resulting array has
populated frames at indices 0 and 2 and an empty slot at index 1, and
processing the entries in the opposite order yields the same array (the
gap is not collapsed and out-of-order resolution does not reorder
frames). -/
theorem c6_exception_stack_indexed_by_name (st : AdapterState)
    (p0 p2 : List (String × String)) :
    buildPausedStackFrames st [("0", p0), ("2", p2)] =
      [some (buildExceptionStackFrame st 0 p0), none,
       some (buildExceptionStackFrame st 2 p2)] ∧
    buildPausedStackFrames st [("2", p2), ("0", p0)] =
      buildPausedStackFrames st [("0", p0), ("2", p2)] :=
  ⟨rfl, rfl⟩

/-! ## C7 -/

theorem find?_append_some {α : Type} (p : α → Bool) (l1 l2 : List α) (a : α)
    (h : l1.find? p = some a) : (l1 ++ l2).find? p = some a := by
  induction l1 with
  | nil => simp at h
  | cons x xs ih =>
    rw [List.cons_append]
    by_cases hpx : p x = true
    · rw [List.find?_cons_of_pos _ hpx] at h
      rw [List.find?_cons_of_pos _ hpx]
      exact h
    · rw [List.find?_cons_of_neg _ (by simpa using hpx)] at h
      rw [List.find?_cons_of_neg _ (by simpa using hpx)]
      exact ih h

/-- Every field of the CDP error payload survives
`Object.assign(new Error(), payload)`. -/
theorem getField_objAssign (target src : JObj) (k : String) (v : JVal)
    (h : getField src k = some v) : getField (objAssign target src) k = some v := by
  unfold getField at h ⊢
  unfold objAssign
  obtain ⟨pair, hfind, hv⟩ :
      ∃ pair, src.find? (fun p => p.1 == k) = some pair ∧ pair.2 = v := by
    cases hf : src.find? (fun p => p.1 == k) with
    | none => rw [hf] at h; simp at h
    | some q =>
      rw [hf] at h
      simp at h
      exact ⟨q, rfl, h⟩
  rw [find?_append_some _ _ _ _ hfind]
  simp [hv]

/-- C7: for an incoming message whose id matches a pending correlation
entry, an error payload rejects that request's future with an error
object carrying every runtime-provided error field and removes the
entry; a result payload resolves the future with that result and removes
the entry; a message with neither payload leaves the correlation map
untouched, and `sendCDPMessage` only adds entries — so an entry is never
removed before a matching response or error arrives. -/
theorem c7_cdp_response_correlation (pending : List Nat) (id : Nat)
    (hp : pending.contains id = true) :
    (∀ (r : JObj) (e : Option JObj),
      (handleResponseMessage pending id (some r) e).2 = [DapAction.resolvePromise id r] ∧
      id ∉ (handleResponseMessage pending id (some r) e).1 ∧
      ∀ j ∈ pending, j ≠ id → j ∈ (handleResponseMessage pending id (some r) e).1) ∧
    (∀ e : JObj,
      (handleResponseMessage pending id none (some e)).2 =
        [DapAction.rejectPromise id (objAssign newErrorObj e)] ∧
      (∀ (k : String) (v : JVal), getField e k = some v →
        getField (objAssign newErrorObj e) k = some v) ∧
      id ∉ (handleResponseMessage pending id none (some e)).1 ∧
      ∀ j ∈ pending, j ≠ id → j ∈ (handleResponseMessage pending id none (some e)).1) ∧
    handleResponseMessage pending id none none = (pending, []) ∧
    (∀ (st : AdapterState), ∀ j ∈ st.cdpMessagePromises,
      j ∈ (sendCDPMessage st).1.cdpMessagePromises) := by
  refine ⟨?_, ?_, ?_, ?_⟩
  · intro r e
    refine ⟨?_, ?_, ?_⟩
    · simp [handleResponseMessage, hp]
      simpa using hp
    · simp [handleResponseMessage, List.mem_filter]
    · intro j hj hne
      simp [handleResponseMessage, List.mem_filter, hj, hne]
  · intro e
    refine ⟨?_, ?_, ?_, ?_⟩
    · simp [handleResponseMessage, hp]
      simpa using hp
    · intro k v hv
      exact getField_objAssign newErrorObj e k v hv
    · simp [handleResponseMessage, List.mem_filter]
    · intro j hj hne
      simp [handleResponseMessage, List.mem_filter, hj, hne]
  · rfl
  · intro st j hj
    simp [sendCDPMessage]
    exact Or.inl hj

/-- Closed instance of C7: a matching error response is rejected with
the field-preserving error object (the pending set here is `[1, 2]` and
the matching id is `2`). -/
theorem c7_witness :
    (handleResponseMessage [1, 2] 2 none (some [("code", JVal.num 7)])).2 =
      [DapAction.rejectPromise 2 (objAssign newErrorObj [("code", JVal.num 7)])] ∧
    handleResponseMessage [1, 2] 2 none none = ([1, 2], []) :=
  ⟨((c7_cdp_response_correlation [1, 2] 2 (by decide)).2.1 [("code", JVal.num 7)]).1,
   (c7_cdp_response_correlation [1, 2] 2 (by decide)).2.2.1⟩

/-! ## C5 -/

theorem compareIgnoringHost_self (s : String) (u : URLRec)
    (h : parseURL s = some u) : compareIgnoringHost s s = true := by
  unfold compareIgnoringHost
  rw [h]
  simp

/-- C5: two URLs that differ only in host and/or port (identical scheme
and identical path-query remainder) are accepted by
`compareIgnoringHost`, and a position lookup through
`findOriginalPosition` under either URL consults the same registered
source map, yielding identical results. -/
theorem c5_host_port_insensitive (s1 s2 : String) (u1 u2 : URLRec)
    (h1 : parseURL s1 = some u1) (h2 : parseURL s2 = some u2)
    (hscheme : u1.scheme = u2.scheme) (hpath : u1.pathAndRest = u2.pathAndRest) :
    compareIgnoringHost s1 s2 = true ∧
    ∀ (st : AdapterState) (scriptId : String) (c : Consumer) (off line col : Int),
      st.sourceMaps = [⟨s1, scriptId, c, off⟩] →
      findOriginalPosition st s2 line col = findOriginalPosition st s1 line col := by
  have hcmp : compareIgnoringHost s1 s2 = true := by
    unfold compareIgnoringHost
    rw [h1, h2]
    simp [hrefOf, hscheme, hpath]
  refine ⟨hcmp, ?_⟩
  intro st scriptId c off line col hmaps
  unfold findOriginalPosition
  rw [hmaps]
  simp only [List.foldl_cons, List.foldl_nil]
  rw [hcmp, compareIgnoringHost_self s1 u1 h1]
  simp

/-! ## Association-map lemmas -/

theorem find?_append_none {α : Type} (p : α → Bool) (l1 l2 : List α)
    (h : l1.find? p = none) : (l1 ++ l2).find? p = l2.find? p := by
  induction l1 with
  | nil => simp
  | cons x xs ih =>
    by_cases hpx : p x = true
    · rw [List.find?_cons_of_pos _ hpx] at h
      simp at h
    · rw [List.find?_cons_of_neg _ (by simpa using hpx)] at h
      rw [List.cons_append, List.find?_cons_of_neg _ (by simpa using hpx)]
      exact ih h

theorem mapGet_replace_self (m : List (String × List MyBreakpoint)) (k : String)
    (v : List MyBreakpoint)
    (h : (m.find? (fun p => p.1 == k)).isSome = true) :
    mapGet (m.map (fun p => if p.1 == k then (k, v) else p)) k = some v := by
  induction m with
  | nil => simp at h
  | cons x xs ih =>
    by_cases hx : (x.1 == k) = true
    · unfold mapGet
      simp only [List.map_cons, if_pos hx]
      rw [List.find?_cons_of_pos _ (by simp)]
      rfl
    · rw [List.find?_cons_of_neg _ (by simpa using hx)] at h
      unfold mapGet
      simp only [List.map_cons, if_neg hx]
      rw [List.find?_cons_of_neg _ (by simpa using hx)]
      exact ih h

/-- `Map.set` then `Map.get` at the same key yields the stored value. -/
theorem mapGet_mapSet_self (m : List (String × List MyBreakpoint)) (k : String)
    (v : List MyBreakpoint) : mapGet (mapSet m k v) k = some v := by
  unfold mapSet
  by_cases h : (m.find? (fun p => p.1 == k)).isSome = true
  · rw [if_pos h]
    exact mapGet_replace_self m k v h
  · rw [if_neg h]
    have hn : m.find? (fun p => p.1 == k) = none := by
      cases hf : m.find? (fun p => p.1 == k) with
      | none => rfl
      | some q => rw [hf] at h; simp at h
    unfold mapGet
    rw [find?_append_none _ _ _ hn]
    rw [List.find?_cons_of_pos _ (by simp)]
    rfl

/-- `Map.set` leaves the values of all other keys unchanged. -/
theorem mapGet_mapSet_ne (m : List (String × List MyBreakpoint)) (k k' : String)
    (v : List MyBreakpoint) (hne : k' ≠ k) :
    mapGet (mapSet m k v) k' = mapGet m k' := by
  unfold mapSet
  by_cases h : (m.find? (fun p => p.1 == k)).isSome = true
  · rw [if_pos h]
    unfold mapGet
    clear h
    induction m with
    | nil => rfl
    | cons x xs ih =>
      simp only [List.map_cons]
      by_cases hx' : (x.1 == k') = true
      · have hx : (x.1 == k) = false := by
          cases hb : (x.1 == k) with
          | false => rfl
          | true =>
            have h1 : x.1 = k := by simpa using hb
            have h2 : x.1 = k' := by simpa using hx'
            exact absurd (h1.symm.trans h2) (Ne.symm hne)
        rw [if_neg (by simp [hx])]
        rw [List.find?_cons_of_pos _ (by simpa using hx'),
          List.find?_cons_of_pos _ (by simpa using hx')]
      · by_cases hx : (x.1 == k) = true
        · rw [if_pos hx]
          rw [List.find?_cons_of_neg _ (by
              show ¬((k == k') = true)
              have hxk : x.1 = k := by simpa using hx
              rw [← hxk]
              simpa using hx'),
            List.find?_cons_of_neg _ (by simpa using hx')]
          exact ih
        · rw [if_neg hx]
          rw [List.find?_cons_of_neg _ (by simpa using hx'),
            List.find?_cons_of_neg _ (by simpa using hx')]
          exact ih
  · rw [if_neg h]
    unfold mapGet
    cases hf : m.find? (fun p => p.1 == k') with
    | some q =>
      rw [find?_append_some _ _ _ _ hf]
    | none =>
      rw [find?_append_none _ _ _ hf]
      rw [List.find?_cons_of_neg _ (by
        show ¬(((k, v) : String × List MyBreakpoint).1 == k') = true
        simp
        exact fun hkk => hne hkk.symm)]
      rfl

/-- A value stored in the map belongs to one of its entries. -/
theorem mapGet_some_mem (m : List (String × List MyBreakpoint)) (k : String)
    (v : List MyBreakpoint) (h : mapGet m k = some v) :
    ∃ e, e ∈ m ∧ e.2 = v := by
  unfold mapGet at h
  cases hf : m.find? (fun p => p.1 == k) with
  | none => rw [hf] at h; simp at h
  | some q =>
    rw [hf] at h
    simp at h
    exact ⟨q, List.mem_of_find?_eq_some hf, h⟩

/-! ## Breakpoint-resolution lemmas -/

theorem resolveBreakpoint_verified (st : AdapterState) (oracle : Oracle)
    (sourcePath : String) (bp : MyBreakpoint) (h : bp.verified = true) :
    resolveBreakpoint st oracle sourcePath bp = (bp, []) := by
  unfold resolveBreakpoint
  rw [if_pos h]

theorem resolveBreakpoint_position (st : AdapterState) (oracle : Oracle)
    (sourcePath : String) (bp : MyBreakpoint) :
    (resolveBreakpoint st oracle sourcePath bp).1.line = bp.line ∧
    (resolveBreakpoint st oracle sourcePath bp).1.column = bp.column := by
  unfold resolveBreakpoint
  by_cases h : bp.verified = true
  · rw [if_pos h]
    exact ⟨rfl, rfl⟩
  · rw [if_neg h]
    rcases hr : setCDPBreakpoint st oracle sourcePath bp.line (jsOrInt bp.column 0)
      with ⟨_ | bid, msgs⟩
    · exact ⟨rfl, rfl⟩
    · exact ⟨rfl, rfl⟩

theorem resolveBreakpoint_msgs_set_only (st : AdapterState) (oracle : Oracle)
    (sourcePath : String) (bp : MyBreakpoint) :
    ∀ m ∈ (resolveBreakpoint st oracle sourcePath bp).2,
      ∃ u l c, m = CDPMsg.setBreakpointByUrl u l c := by
  intro m hm
  unfold resolveBreakpoint at hm
  by_cases h : bp.verified = true
  · rw [if_pos h] at hm
    simp at hm
  · rw [if_neg h] at hm
    unfold setCDPBreakpoint at hm
    cases hg : toGeneratedPosition st sourcePath bp.line (jsOrInt bp.column 0) with
    | none =>
      rw [hg] at hm
      simp at hm
    | some gp =>
      rw [hg] at hm
      cases ho : oracle gp.source (gp.lineNumber1Based - 1) gp.columnNumber0Based with
      | none =>
        simp [ho] at hm
        exact ⟨_, _, _, hm⟩
      | some bid =>
        simp [ho] at hm
        exact ⟨_, _, _, hm⟩

theorem matchesPosition_false (line : Int) (column : Option Int) (bp : MyBreakpoint)
    (h : matchesPosition line column bp = false) :
    ¬(bp.line = line ∧ bp.column = column) := by
  unfold matchesPosition at h
  intro hc
  rw [hc.1, hc.2] at h
  simp at h

/-! ## C1 -/

/-- C1: `setBreakPointsRequest` diffs the submitted list against the
stored list by `(line, column)` identity: a breakpoint present in both is
reused as the same record (its `verified` flag and runtime id unchanged
by the merge, and — when it was verified — the resolution phase returns
it untouched with no CDP call); an old breakpoint with no positional
counterpart in the new list triggers a `Debugger.removeBreakpoint` with
its prior id exactly when it was verified, and no breakpoint at its
position survives in the stored map; a breakpoint only in the new list is
created with `verified = false` (and no id) before resolution is
attempted.  The stored map afterwards holds exactly the resolved list. -/
theorem c1_setBreakpoints_diff (st : AdapterState) (oracle : Oracle)
    (sourcePath : String) (reqs : List SourceBreakpoint) :
    let prev := (mapGet st.breakpoints sourcePath).getD []
    let merged := mergeWithPrevious prev reqs
    let out := setBreakPointsRequest st oracle sourcePath (some reqs)
    (∀ i : Fin reqs.length,
      ∃ hi : i.val < merged.length,
        (∀ p, prev.find? (matchesPosition (reqs.get i).line (reqs.get i).column)
            = some p →
          merged.get ⟨i.val, hi⟩ = p ∧
          (p.verified = true →
            resolveBreakpoint st oracle sourcePath p = (p, []))) ∧
        (prev.find? (matchesPosition (reqs.get i).line (reqs.get i).column) = none →
          merged.get ⟨i.val, hi⟩ =
            ⟨(reqs.get i).line, (reqs.get i).column, false, none⟩)) ∧
    (∀ p ∈ prev,
      merged.find? (matchesPosition p.line p.column) = none →
        (p.verified = true → CDPMsg.removeBreakpoint p.id ∈ out.2.1) ∧
        ∀ q ∈ out.2.2, ¬(q.line = p.line ∧ q.column = p.column)) ∧
    (∀ oid : Option Int, CDPMsg.removeBreakpoint oid ∈ out.2.1 →
      ∃ p, p ∈ prev ∧ p.verified = true ∧ p.id = oid ∧
        merged.find? (matchesPosition p.line p.column) = none) ∧
    mapGet out.1.breakpoints sourcePath = some out.2.2 := by
  intro prev merged out
  have hout1 : out.2.1 = staleRemovalMessages prev merged ++
      (merged.map (resolveBreakpoint st oracle sourcePath)).flatMap (fun p => p.2) := rfl
  have hout2 : out.2.2 =
      (merged.map (resolveBreakpoint st oracle sourcePath)).map (fun p => p.1) := rfl
  have houtst : out.1.breakpoints = mapSet st.breakpoints sourcePath out.2.2 := rfl
  refine ⟨?_, ?_, ?_, ?_⟩
  · intro i
    have hi : i.val < merged.length := by
      show i.val < (List.map _ reqs).length
      rw [List.length_map]
      exact i.isLt
    refine ⟨hi, ?_, ?_⟩
    · intro p hp
      have hget : merged.get ⟨i.val, hi⟩ =
          (match prev.find? (matchesPosition (reqs.get i).line (reqs.get i).column) with
           | some prevBp => prevBp
           | none => (⟨(reqs.get i).line, (reqs.get i).column, false, none⟩ : MyBreakpoint)) := by
        show (List.map _ reqs).get _ = _
        simp [List.get_eq_getElem, List.getElem_map]
      rw [hp] at hget
      exact ⟨hget, fun hv => resolveBreakpoint_verified st oracle sourcePath p hv⟩
    · intro hp
      have hget : merged.get ⟨i.val, hi⟩ =
          (match prev.find? (matchesPosition (reqs.get i).line (reqs.get i).column) with
           | some prevBp => prevBp
           | none => (⟨(reqs.get i).line, (reqs.get i).column, false, none⟩ : MyBreakpoint)) := by
        show (List.map _ reqs).get _ = _
        simp [List.get_eq_getElem, List.getElem_map]
      rw [hp] at hget
      exact hget
  · intro p hp hnone
    constructor
    · intro hv
      rw [hout1]
      apply List.mem_append_left
      unfold staleRemovalMessages
      rw [List.mem_filterMap]
      refine ⟨p, hp, ?_⟩
      rw [hnone, hv]
      rfl
    · intro q hq
      rw [hout2] at hq
      rw [List.mem_map] at hq
      obtain ⟨pr, hpr, hq⟩ := hq
      rw [List.mem_map] at hpr
      obtain ⟨mm, hmm, hpr⟩ := hpr
      have hfail := List.find?_eq_none.mp hnone mm hmm
      have hfail' : matchesPosition p.line p.column mm = false := by
        cases hb : matchesPosition p.line p.column mm with
        | false => rfl
        | true => exact absurd hb hfail
      have hnp := matchesPosition_false _ _ _ hfail'
      have hpos := resolveBreakpoint_position st oracle sourcePath mm
      intro hc
      apply hnp
      constructor
      · rw [← hc.1, ← hq, ← hpr, hpos.1]
      · rw [← hc.2, ← hq, ← hpr, hpos.2]
  · intro oid hmem
    rw [hout1] at hmem
    rcases List.mem_append.mp hmem with hmem | hmem
    · unfold staleRemovalMessages at hmem
      rw [List.mem_filterMap] at hmem
      obtain ⟨p, hp, hsome⟩ := hmem
      by_cases hcond : (p.verified &&
          (merged.find? (matchesPosition p.line p.column)).isNone) = true
      · rw [if_pos hcond] at hsome
        have hoid : p.id = oid := by
          injection hsome with h
          injection h
        rcases Bool.and_eq_true _ _ |>.mp hcond with ⟨hv, hn⟩
        refine ⟨p, hp, hv, hoid, ?_⟩
        exact Option.isNone_iff_eq_none.mp hn
      · rw [if_neg hcond] at hsome
        exact absurd hsome (by simp)
    · rw [List.mem_flatMap] at hmem
      obtain ⟨pr, hpr, hmsg⟩ := hmem
      rw [List.mem_map] at hpr
      obtain ⟨mm, hmm, hpr⟩ := hpr
      have := resolveBreakpoint_msgs_set_only st oracle sourcePath mm
        (CDPMsg.removeBreakpoint oid) (hpr ▸ hmsg)
      obtain ⟨u, l, c, hcontr⟩ := this
      simp at hcontr
  · rw [houtst]
    exact mapGet_mapSet_self st.breakpoints sourcePath out.2.2

/-- A stored breakpoint at line 10 of `file.js`, verified with runtime
id 1. -/
def bpAt10 : MyBreakpoint := ⟨10, none, true, some 1⟩

/-- A stored breakpoint at line 20 of `file.js`, verified with runtime
id 2. -/
def bpAt20 : MyBreakpoint := ⟨20, none, true, some 2⟩

/-- A state tracking the two verified breakpoints of `file.js`. -/
def stC1 : AdapterState :=
  { initialState none 0 with breakpoints := [("file.js", [bpAt10, bpAt20])] }

/-- An oracle whose `Debugger.setBreakpointByUrl` never returns an id. -/
def oracleNone : Oracle := fun _ _ _ => none

/-- Closed instance of C1: resubmitting only line 10 issues a
`Debugger.removeBreakpoint` for line 20's prior id 2, while line 10's
breakpoint is reused and its resolution is a no-op. -/
theorem c1_witness :
    CDPMsg.removeBreakpoint (some 2) ∈
      (setBreakPointsRequest stC1 oracleNone "file.js"
        (some [⟨10, none⟩])).2.1 ∧
    resolveBreakpoint stC1 oracleNone "file.js" bpAt10 = (bpAt10, []) := by
  have h := c1_setBreakpoints_diff stC1 oracleNone "file.js" [⟨10, none⟩]
  refine ⟨?_, ?_⟩
  · exact (h.2.1 bpAt20 (by decide) (by decide)).1 (by decide)
  · obtain ⟨hi, h1, _⟩ := h.1 ⟨0, by decide⟩
    exact (h1 bpAt10 (by decide)).2 (by decide)

/-! ## C2 -/

/-- `rebindBreakpoint` does not read the breakpoint map, so replacing it
leaves the result unchanged. -/
theorem rebindBreakpoint_breakpoints_irrel (st : AdapterState)
    (b : List (String × List MyBreakpoint)) (oracle : Oracle)
    (sourceMapPath : String) (bp : MyBreakpoint) :
    rebindBreakpoint { st with breakpoints := b } oracle sourceMapPath bp =
      rebindBreakpoint st oracle sourceMapPath bp := rfl

theorem rebindBreakpoint_remove_head (st : AdapterState) (oracle : Oracle)
    (sourceMapPath : String) (bp : MyBreakpoint) (h : bp.verified = true) :
    (rebindBreakpoint st oracle sourceMapPath bp).2.head? =
      some (CDPMsg.removeBreakpoint bp.id) := by
  unfold rebindBreakpoint
  rw [h]
  rcases setCDPBreakpoint st oracle sourceMapPath
      (if st.linesStartAt1 then bp.line else bp.line + 1)
      (if st.columnsStartAt1 then jsOrInt bp.column 1 - 1 else jsOrInt bp.column 0)
    with ⟨_ | bid, msgs⟩
  · rfl
  · rfl

theorem rebindBreakpoint_no_remove (st : AdapterState) (oracle : Oracle)
    (sourceMapPath : String) (bp : MyBreakpoint) (h : bp.verified = false) :
    ∀ oid, CDPMsg.removeBreakpoint oid ∉
      (rebindBreakpoint st oracle sourceMapPath bp).2 := by
  intro oid hmem
  unfold rebindBreakpoint at hmem
  rw [h] at hmem
  unfold setCDPBreakpoint at hmem
  cases hg : toGeneratedPosition st sourceMapPath
      (if st.linesStartAt1 then bp.line else bp.line + 1)
      (if st.columnsStartAt1 then jsOrInt bp.column 1 - 1 else jsOrInt bp.column 0) with
  | none =>
    rw [hg] at hmem
    simp at hmem
  | some gp =>
    rw [hg] at hmem
    cases ho : oracle gp.source (gp.lineNumber1Based - 1) gp.columnNumber0Based with
    | none => simp [ho] at hmem
    | some bid => simp [ho] at hmem

theorem rebindBreakpoint_outcome (st : AdapterState) (oracle : Oracle)
    (sourceMapPath : String) (bp : MyBreakpoint) :
    (∀ gp, toGeneratedPosition st sourceMapPath
        (if st.linesStartAt1 then bp.line else bp.line + 1)
        (if st.columnsStartAt1 then jsOrInt bp.column 1 - 1 else jsOrInt bp.column 0)
          = some gp →
      CDPMsg.setBreakpointByUrl gp.source (gp.lineNumber1Based - 1)
          gp.columnNumber0Based ∈ (rebindBreakpoint st oracle sourceMapPath bp).2 ∧
      (∀ bid, oracle gp.source (gp.lineNumber1Based - 1) gp.columnNumber0Based
          = some bid →
        (rebindBreakpoint st oracle sourceMapPath bp).1 =
          { bp with id := some bid, verified := true }) ∧
      (oracle gp.source (gp.lineNumber1Based - 1) gp.columnNumber0Based = none →
        (rebindBreakpoint st oracle sourceMapPath bp).1 =
          { bp with verified := false })) ∧
    (toGeneratedPosition st sourceMapPath
        (if st.linesStartAt1 then bp.line else bp.line + 1)
        (if st.columnsStartAt1 then jsOrInt bp.column 1 - 1 else jsOrInt bp.column 0)
          = none →
      (rebindBreakpoint st oracle sourceMapPath bp).1 =
        { bp with verified := false }) := by
  constructor
  · intro gp hg
    refine ⟨?_, ?_, ?_⟩
    · unfold rebindBreakpoint setCDPBreakpoint
      rw [hg]
      cases ho : oracle gp.source (gp.lineNumber1Based - 1) gp.columnNumber0Based with
      | none => simp [ho]
      | some bid => simp [ho]
    · intro bid ho
      unfold rebindBreakpoint setCDPBreakpoint
      rw [hg]
      simp [ho]
    · intro ho
      unfold rebindBreakpoint setCDPBreakpoint
      rw [hg]
      simp [ho]
  · intro hg
    unfold rebindBreakpoint setCDPBreakpoint
    rw [hg]

/-- Function-level form of `rebindBreakpoint_breakpoints_irrel`. -/
theorem rebindBreakpoint_fun_irrel (st : AdapterState)
    (b : List (String × List MyBreakpoint)) (oracle : Oracle) (p : String) :
    rebindBreakpoint { st with breakpoints := b } oracle p =
      rebindBreakpoint st oracle p :=
  funext (fun bp => rebindBreakpoint_breakpoints_irrel st b oracle p bp)

/-- Reduction of `updateBreakpointsStep` when the path's absolute file
has no tracked breakpoints. -/
theorem updateBreakpointsStep_lit_none (oracle : Oracle) (st : AdapterState)
    (b0 : List (String × List MyBreakpoint)) (msgs : List CDPMsg) (p : String)
    (h : mapGet b0 (toAbsoluteFilePath st.sourceMapAliases p) = none) :
    updateBreakpointsStep oracle ({ st with breakpoints := b0 }, msgs) p =
      ({ st with breakpoints := b0 }, msgs) := by
  unfold updateBreakpointsStep
  dsimp only
  rw [h]

/-- Reduction of `updateBreakpointsStep` when the path's absolute file
holds tracked breakpoints: each of them is rebound. -/
theorem updateBreakpointsStep_lit_some (oracle : Oracle) (st : AdapterState)
    (b0 : List (String × List MyBreakpoint)) (msgs : List CDPMsg) (p : String)
    (bps : List MyBreakpoint)
    (h : mapGet b0 (toAbsoluteFilePath st.sourceMapAliases p) = some bps) :
    updateBreakpointsStep oracle ({ st with breakpoints := b0 }, msgs) p =
      ({ st with breakpoints := mapSet b0 (toAbsoluteFilePath st.sourceMapAliases p) ((bps.map (rebindBreakpoint st oracle p)).map (fun q => q.1)) },
       msgs ++ (bps.map (rebindBreakpoint st oracle p)).flatMap (fun q => q.2)) := by
  unfold updateBreakpointsStep
  dsimp only
  rw [h]
  dsimp only
  rw [rebindBreakpoint_fun_irrel]

/-- While folding over the remaining source paths, a key not targeted by
any of them keeps its stored breakpoint list. -/
theorem updateFold_mapGet_untouched (oracle : Oracle) (st : AdapterState)
    (key : String) :
    ∀ (paths : List String) (b0 : List (String × List MyBreakpoint))
      (msgs : List CDPMsg),
      (∀ p ∈ paths, toAbsoluteFilePath st.sourceMapAliases p ≠ key) →
      mapGet ((paths.foldl (updateBreakpointsStep oracle) ({ st with breakpoints := b0 }, msgs)).1).breakpoints key = mapGet b0 key := by
  intro paths
  induction paths with
  | nil =>
    intro b0 msgs hne
    rfl
  | cons p ps ih =>
    intro b0 msgs hne
    rw [List.foldl_cons]
    cases hb : mapGet b0 (toAbsoluteFilePath st.sourceMapAliases p) with
    | none =>
      rw [updateBreakpointsStep_lit_none oracle st b0 msgs p hb]
      exact ih b0 msgs (fun q hq => hne q (List.mem_cons_of_mem p hq))
    | some bps =>
      rw [updateBreakpointsStep_lit_some oracle st b0 msgs p bps hb]
      rw [ih _ _ (fun q hq => hne q (List.mem_cons_of_mem p hq))]
      exact mapGet_mapSet_ne _ _ _ _ (fun hk => hne p (List.mem_cons_self p ps) hk.symm)

/-- The fold of `updateBreakpointsInSource` rebinds the tracked
breakpoints of every listed source path exactly once (given that the
paths' absolute targets are pairwise distinct), and every message of a
rebind is issued. -/
theorem updateFold_processes_key (oracle : Oracle) (st : AdapterState) :
    ∀ (paths : List String) (b0 : List (String × List MyBreakpoint))
      (msgs : List CDPMsg) (sourceMapPath : String) (bps : List MyBreakpoint),
      sourceMapPath ∈ paths →
      (paths.map (toAbsoluteFilePath st.sourceMapAliases)).Nodup →
      mapGet b0 (toAbsoluteFilePath st.sourceMapAliases sourceMapPath) = some bps →
      mapGet ((paths.foldl (updateBreakpointsStep oracle) ({ st with breakpoints := b0 }, msgs)).1).breakpoints (toAbsoluteFilePath st.sourceMapAliases sourceMapPath) = some (bps.map (fun b => (rebindBreakpoint st oracle sourceMapPath b).1)) ∧
      ∀ m ∈ bps.flatMap (fun b => (rebindBreakpoint st oracle sourceMapPath b).2),
        m ∈ (paths.foldl (updateBreakpointsStep oracle) ({ st with breakpoints := b0 }, msgs)).2 := by
  intro paths
  induction paths with
  | nil =>
    intro b0 msgs smp bps hmem
    exact absurd hmem (List.not_mem_nil smp)
  | cons p ps ih =>
    intro b0 msgs smp bps hmem hnodup hbps
    rw [List.map_cons, List.nodup_cons] at hnodup
    rw [List.foldl_cons]
    by_cases hp : p = smp
    · subst hp
      rw [updateBreakpointsStep_lit_some oracle st b0 msgs p bps hbps]
      have hne : ∀ q ∈ ps, toAbsoluteFilePath st.sourceMapAliases q ≠
          toAbsoluteFilePath st.sourceMapAliases p :=
        fun q hq hcontra =>
          hnodup.1 (hcontra ▸ List.mem_map_of_mem (toAbsoluteFilePath st.sourceMapAliases) hq)
      constructor
      · rw [updateFold_mapGet_untouched oracle st _ ps _ _ hne]
        rw [mapGet_mapSet_self]
        rw [List.map_map]
        rfl
      · intro m hm
        obtain ⟨b2, e2, hfold⟩ := updateBreakpointsFold_shape oracle ps
          ({ st with breakpoints := mapSet b0 (toAbsoluteFilePath st.sourceMapAliases p) ((bps.map (rebindBreakpoint st oracle p)).map (fun q => q.1)) },
           msgs ++ (bps.map (rebindBreakpoint st oracle p)).flatMap (fun q => q.2))
        rw [hfold]
        dsimp only
        apply List.mem_append_left
        apply List.mem_append_right
        rcases List.mem_flatMap.mp hm with ⟨b, hbmem, hmsg⟩
        exact List.mem_flatMap.mpr
          ⟨rebindBreakpoint st oracle p b, List.mem_map_of_mem _ hbmem, hmsg⟩
    · have hmem2 : smp ∈ ps := by
        rcases List.mem_cons.mp hmem with h | h
        · exact absurd h.symm hp
        · exact h
      have hnekey : toAbsoluteFilePath st.sourceMapAliases p ≠
          toAbsoluteFilePath st.sourceMapAliases smp :=
        fun hcontra =>
          hnodup.1 (hcontra ▸ List.mem_map_of_mem (toAbsoluteFilePath st.sourceMapAliases) hmem2)
      cases hb : mapGet b0 (toAbsoluteFilePath st.sourceMapAliases p) with
      | none =>
        rw [updateBreakpointsStep_lit_none oracle st b0 msgs p hb]
        exact ih b0 msgs smp bps hmem2 hnodup.2 hbps
      | some bps1 =>
        rw [updateBreakpointsStep_lit_some oracle st b0 msgs p bps1 hb]
        refine ih _ _ smp bps hmem2 hnodup.2 ?_
        rw [mapGet_mapSet_ne _ _ _ _ (Ne.symm hnekey)]
        exact hbps

/-- C2: when a script-parsed event registers a new source map, every
tracked breakpoint whose source file is among the map's original sources
is rebound: a `Debugger.removeBreakpoint` for the old runtime id is
issued first exactly when the breakpoint was verified, then the
resolve-and-set procedure re-runs — translate to a generated position,
issue `Debugger.setBreakpointByUrl`, mark verified and store the new id
on success, mark unverified on failure.  (Stated for maps whose original
sources resolve to pairwise-distinct absolute paths, matching the
per-file iteration of the source.) -/
theorem c2_scriptParsed_rebinds_breakpoints (st : AdapterState) (oracle : Oracle)
    (consumer : Consumer) (sourceMapPath : String) (bps : List MyBreakpoint)
    (bp : MyBreakpoint)
    (hnodup : ((uniqueSourceMapPaths consumer).map
      (toAbsoluteFilePath st.sourceMapAliases)).Nodup)
    (hmem : sourceMapPath ∈ uniqueSourceMapPaths consumer)
    (hbps : mapGet st.breakpoints
      (toAbsoluteFilePath st.sourceMapAliases sourceMapPath) = some bps)
    (hbp : bp ∈ bps) :
    mapGet ((updateBreakpointsInSource st oracle consumer).1).breakpoints
        (toAbsoluteFilePath st.sourceMapAliases sourceMapPath) =
      some (bps.map (fun b => (rebindBreakpoint st oracle sourceMapPath b).1)) ∧
    (∀ m ∈ (rebindBreakpoint st oracle sourceMapPath bp).2,
      m ∈ (updateBreakpointsInSource st oracle consumer).2) ∧
    (bp.verified = true →
      (rebindBreakpoint st oracle sourceMapPath bp).2.head? =
        some (CDPMsg.removeBreakpoint bp.id)) ∧
    (bp.verified = false →
      ∀ oid, CDPMsg.removeBreakpoint oid ∉
        (rebindBreakpoint st oracle sourceMapPath bp).2) ∧
    (∀ gp, toGeneratedPosition st sourceMapPath
        (if st.linesStartAt1 then bp.line else bp.line + 1)
        (if st.columnsStartAt1 then jsOrInt bp.column 1 - 1 else jsOrInt bp.column 0)
          = some gp →
      CDPMsg.setBreakpointByUrl gp.source (gp.lineNumber1Based - 1)
          gp.columnNumber0Based ∈ (rebindBreakpoint st oracle sourceMapPath bp).2 ∧
      (∀ bid, oracle gp.source (gp.lineNumber1Based - 1) gp.columnNumber0Based
          = some bid →
        (rebindBreakpoint st oracle sourceMapPath bp).1 =
          { bp with id := some bid, verified := true }) ∧
      (oracle gp.source (gp.lineNumber1Based - 1) gp.columnNumber0Based = none →
        (rebindBreakpoint st oracle sourceMapPath bp).1 =
          { bp with verified := false })) ∧
    (toGeneratedPosition st sourceMapPath
        (if st.linesStartAt1 then bp.line else bp.line + 1)
        (if st.columnsStartAt1 then jsOrInt bp.column 1 - 1 else jsOrInt bp.column 0)
          = none →
      (rebindBreakpoint st oracle sourceMapPath bp).1 =
        { bp with verified := false }) := by
  have hfold := updateFold_processes_key oracle st (uniqueSourceMapPaths consumer)
    st.breakpoints [] sourceMapPath bps hmem hnodup hbps
  refine ⟨hfold.1, ?_, rebindBreakpoint_remove_head st oracle sourceMapPath bp,
    rebindBreakpoint_no_remove st oracle sourceMapPath bp,
    (rebindBreakpoint_outcome st oracle sourceMapPath bp).1,
    (rebindBreakpoint_outcome st oracle sourceMapPath bp).2⟩
  intro m hm
  exact hfold.2 m (List.mem_flatMap.mpr ⟨bp, hbp, hm⟩)

/-- A consumer with one mapping whose original source is `src/app.js`. -/
def consumerC2 : Consumer := [⟨1, 0, some ("src/app.js", 3, 0)⟩]

/-- A state tracking one verified breakpoint (id 9) in `src/app.js`. -/
def stC2 : AdapterState :=
  { initialState none 0 with
    breakpoints := [("src/app.js", [⟨3, none, true, some 9⟩])] }

/-- Closed instance of C2: parsing a map that claims `src/app.js`
rebinds its tracked breakpoint, and the rebind's first message removes
the old runtime id 9. -/
theorem c2_witness :
    mapGet ((updateBreakpointsInSource stC2 oracleNone consumerC2).1).breakpoints
        "src/app.js" =
      some [(rebindBreakpoint stC2 oracleNone "src/app.js" ⟨3, none, true, some 9⟩).1] ∧
    (rebindBreakpoint stC2 oracleNone "src/app.js" ⟨3, none, true, some 9⟩).2.head? =
      some (CDPMsg.removeBreakpoint (some 9)) := by
  have h := c2_scriptParsed_rebinds_breakpoints stC2 oracleNone consumerC2 "src/app.js"
    [⟨3, none, true, some 9⟩] ⟨3, none, true, some 9⟩
    (by decide) (by decide) (by decide) (by decide)
  exact ⟨h.1, h.2.2.1 (by decide)⟩

/-! ## C8 -/

/-- The claimed invariant: every tracked breakpoint with
`verified = true` has a runtime breakpoint id. -/
def VerifiedImpliesId (st : AdapterState) : Prop :=
  ∀ entry ∈ st.breakpoints, ∀ bp ∈ entry.2, bp.verified = true → bp.id ≠ none

theorem mem_mapSet (m : List (String × List MyBreakpoint)) (k : String)
    (v : List MyBreakpoint) (e : String × List MyBreakpoint)
    (he : e ∈ mapSet m k v) : e ∈ m ∨ e.2 = v := by
  unfold mapSet at he
  by_cases h : (m.find? (fun p => p.1 == k)).isSome = true
  · rw [if_pos h] at he
    rcases List.mem_map.mp he with ⟨x, hx, hxe⟩
    by_cases hxk : (x.1 == k) = true
    · rw [if_pos hxk] at hxe
      right
      rw [← hxe]
    · rw [if_neg hxk] at hxe
      left
      rw [← hxe]
      exact hx
  · rw [if_neg h] at he
    rcases List.mem_append.mp he with he | he
    · left
      exact he
    · right
      have : e = (k, v) := List.mem_singleton.mp he
      rw [this]

theorem resolveBreakpoint_verified_id (st : AdapterState) (oracle : Oracle)
    (sourcePath : String) (bp : MyBreakpoint)
    (h : bp.verified = true → bp.id ≠ none) :
    (resolveBreakpoint st oracle sourcePath bp).1.verified = true →
    (resolveBreakpoint st oracle sourcePath bp).1.id ≠ none := by
  unfold resolveBreakpoint
  by_cases hv : bp.verified = true
  · rw [if_pos hv]
    exact h
  · rw [if_neg hv]
    rcases hr : setCDPBreakpoint st oracle sourcePath bp.line (jsOrInt bp.column 0)
      with ⟨_ | bid, msgs⟩
    · exact fun habs => absurd habs hv
    · intro _
      simp

theorem rebindBreakpoint_verified_id (st : AdapterState) (oracle : Oracle)
    (sourceMapPath : String) (bp : MyBreakpoint) :
    (rebindBreakpoint st oracle sourceMapPath bp).1.verified = true →
    (rebindBreakpoint st oracle sourceMapPath bp).1.id ≠ none := by
  unfold rebindBreakpoint
  rcases hr : setCDPBreakpoint st oracle sourceMapPath
      (if st.linesStartAt1 then bp.line else bp.line + 1)
      (if st.columnsStartAt1 then jsOrInt bp.column 1 - 1 else jsOrInt bp.column 0)
    with ⟨_ | bid, msgs⟩
  · intro habs
    simp at habs
  · intro _
    simp

theorem setBreakPointsRequest_preserves_inv (st : AdapterState) (oracle : Oracle)
    (sourcePath : String) (reqs : Option (List SourceBreakpoint))
    (hinv : VerifiedImpliesId st) :
    VerifiedImpliesId (setBreakPointsRequest st oracle sourcePath reqs).1 := by
  intro entry hentry bp hbp
  rcases mem_mapSet _ _ _ _ hentry with he | he
  · exact hinv entry he bp hbp
  · rw [he] at hbp
    rcases List.mem_map.mp hbp with ⟨pr, hpr, hbppr⟩
    rcases List.mem_map.mp hpr with ⟨mm, hmm, hprmm⟩
    have hPmm : mm.verified = true → mm.id ≠ none := by
      unfold mergeWithPrevious at hmm
      rcases List.mem_map.mp hmm with ⟨req, hreq, hmmreq⟩
      cases hfind : ((mapGet st.breakpoints sourcePath).getD []).find?
          (matchesPosition req.line req.column) with
      | none =>
        rw [hfind] at hmmreq
        rw [← hmmreq]
        intro habs
        simp at habs
      | some prevBp =>
        rw [hfind] at hmmreq
        rw [← hmmreq]
        have hprevmem := List.mem_of_find?_eq_some hfind
        cases hmg : mapGet st.breakpoints sourcePath with
        | none =>
          rw [hmg] at hprevmem
          simp at hprevmem
        | some prevList =>
          rw [hmg] at hprevmem
          obtain ⟨e, hemem, he2⟩ := mapGet_some_mem st.breakpoints sourcePath prevList hmg
          exact hinv e hemem prevBp (by rw [he2]; simpa using hprevmem)
    rw [← hbppr, ← hprmm]
    exact resolveBreakpoint_verified_id st oracle sourcePath mm hPmm

theorem updateBreakpointsStep_preserves_inv (oracle : Oracle)
    (acc : AdapterState × List CDPMsg) (p : String)
    (hinv : VerifiedImpliesId acc.1) :
    VerifiedImpliesId (updateBreakpointsStep oracle acc p).1 := by
  unfold updateBreakpointsStep
  dsimp only
  cases hb : mapGet acc.1.breakpoints (toAbsoluteFilePath acc.1.sourceMapAliases p) with
  | none =>
    exact hinv
  | some bps =>
    intro entry hentry bp hbp
    rcases mem_mapSet _ _ _ _ hentry with he | he
    · exact hinv entry he bp hbp
    · rw [he] at hbp
      rcases List.mem_map.mp hbp with ⟨pr, hpr, hbppr⟩
      rcases List.mem_map.mp hpr with ⟨mm, hmm, hprmm⟩
      rw [← hbppr, ← hprmm]
      exact rebindBreakpoint_verified_id acc.1 oracle p mm

theorem updateFold_preserves_inv (oracle : Oracle) :
    ∀ (paths : List String) (acc : AdapterState × List CDPMsg),
      VerifiedImpliesId acc.1 →
      VerifiedImpliesId ((paths.foldl (updateBreakpointsStep oracle) acc).1) := by
  intro paths
  induction paths with
  | nil =>
    intro acc h
    exact h
  | cons p ps ih =>
    intro acc h
    rw [List.foldl_cons]
    exact ih _ (updateBreakpointsStep_preserves_inv oracle acc p h)

theorem handleScriptParsed_preserves_inv (st : AdapterState) (oracle : Oracle)
    (url scriptId : String) (sm : Option ParsedSourceMap)
    (hinv : VerifiedImpliesId st) :
    VerifiedImpliesId (handleScriptParsed st oracle url scriptId sm).1 := by
  cases sm with
  | none => exact hinv
  | some m =>
    unfold handleScriptParsed updateBreakpointsInSource
    dsimp only
    apply updateFold_preserves_inv
    intro entry hentry bp hbp
    exact hinv entry hentry bp hbp

/-- C8: at every state reachable by any sequence of `setBreakpoints`
requests and script-parsed events from the initial state, every tracked
breakpoint with `verified = true` has a runtime breakpoint id
(`verified` is only set together with storing the id of a successful
`Debugger.setBreakpointByUrl` response). -/
theorem c8_verified_breakpoints_have_ids
    (aliases : Option (List (String × String))) (expoPreludeLineCount : Int)
    (evs : List AdapterEvent) :
    VerifiedImpliesId (runEvents (initialState aliases expoPreludeLineCount) evs) := by
  have hstep : ∀ st ev, VerifiedImpliesId st → VerifiedImpliesId (stepEvent st ev) := by
    intro st ev h
    cases ev with
    | setBPs oracle sourcePath reqs =>
      exact setBreakPointsRequest_preserves_inv st oracle sourcePath reqs h
    | scriptParsed oracle url scriptId sm =>
      exact handleScriptParsed_preserves_inv st oracle url scriptId sm h
  have hinit : VerifiedImpliesId (initialState aliases expoPreludeLineCount) := by
    intro entry hentry bp hbp
    exact absurd hentry (List.not_mem_nil entry)
  have hrun : ∀ (l : List AdapterEvent) (st : AdapterState), VerifiedImpliesId st →
      VerifiedImpliesId (l.foldl stepEvent st) := by
    intro l
    induction l with
    | nil =>
      intro st h
      exact h
    | cons ev l ih =>
      intro st h
      rw [List.foldl_cons]
      exact ih _ (hstep st ev h)
  exact hrun evs _ hinit

/-! ## C4: order lemmas -/

theorem lexLE_iff (a b : Int × Int) :
    lexLE a b = true ↔ (a.1 < b.1 ∨ (a.1 = b.1 ∧ a.2 ≤ b.2)) := by
  unfold lexLE
  simp [Bool.or_eq_true, Bool.and_eq_true, decide_eq_true_eq, beq_iff_eq]

theorem lexLE_refl (a : Int × Int) : lexLE a a = true := by
  rw [lexLE_iff]
  omega

theorem lexLE_trans {a b c : Int × Int} (h1 : lexLE a b = true)
    (h2 : lexLE b c = true) : lexLE a c = true := by
  rw [lexLE_iff] at h1 h2 ⊢
  omega

theorem lexLE_antisymm {a b : Int × Int} (h1 : lexLE a b = true)
    (h2 : lexLE b a = true) : a = b := by
  rw [lexLE_iff] at h1 h2
  have h3 : a.1 = b.1 ∧ a.2 = b.2 := by omega
  exact Prod.ext h3.1 h3.2

theorem lubBefore_le_orig (m b : Mapping) (h : lubBefore m b = true) :
    lexLE (origPosOf m) (origPosOf b) = true := by
  rcases hm : origPosOf m with ⟨m1, m2⟩
  rcases hb : origPosOf b with ⟨b1, b2⟩
  unfold lubBefore at h
  rw [hm, hb] at h
  rw [lexLE_iff]
  simp only [Bool.or_eq_true, Bool.and_eq_true, decide_eq_true_eq, beq_iff_eq] at h
  dsimp only
  omega

theorem bool_eq_false_of_not {b : Bool} (h : ¬ b = true) : b = false := by
  cases b
  · rfl
  · exact absurd rfl h

theorem not_lubBefore_le_orig (m b : Mapping) (h : lubBefore m b = false) :
    lexLE (origPosOf b) (origPosOf m) = true := by
  rcases hm : origPosOf m with ⟨m1, m2⟩
  rcases hb : origPosOf b with ⟨b1, b2⟩
  have h2 : ¬ (lubBefore m b = true) := by
    rw [h]
    simp
  unfold lubBefore at h2
  rw [hm, hb] at h2
  simp only [Bool.or_eq_true, Bool.and_eq_true, decide_eq_true_eq, beq_iff_eq] at h2
  rw [lexLE_iff]
  dsimp only
  omega

/-! ## C4: greatest-lower-bound lemmas -/

theorem glbMapping_none : ∀ (c : Consumer) (line col : Int),
    glbMapping c line col = none →
    ∀ m' ∈ c, ¬(m'.generatedLine = line ∧ m'.generatedColumn ≤ col) := by
  intro c line col
  induction c with
  | nil =>
    intro h m' hm'
    simp at hm'
  | cons x rest ih =>
    intro h m' hm'
    unfold glbMapping at h
    dsimp only at h
    by_cases hx : x.generatedLine = line ∧ x.generatedColumn ≤ col
    · rw [if_pos hx] at h
      cases hr : glbMapping rest line col with
      | none =>
        rw [hr] at h
        have h2 : some x = (none : Option Mapping) := h
        exact absurd h2 (by simp)
      | some b =>
        rw [hr] at h
        have h2 : (if b.generatedColumn < x.generatedColumn then some x else some b)
            = (none : Option Mapping) := h
        by_cases hc : b.generatedColumn < x.generatedColumn
        · rw [if_pos hc] at h2
          exact absurd h2 (by simp)
        · rw [if_neg hc] at h2
          exact absurd h2 (by simp)
    · rw [if_neg hx] at h
      rcases List.mem_cons.mp hm' with rfl | hm'
      · exact hx
      · exact ih h m' hm'

theorem glbMapping_spec : ∀ (c : Consumer) (line col : Int) (m : Mapping),
    glbMapping c line col = some m →
    m ∈ c ∧ m.generatedLine = line ∧ m.generatedColumn ≤ col := by
  intro c line col
  induction c with
  | nil =>
    intro m h
    simp [glbMapping] at h
  | cons x rest ih =>
    intro m h
    unfold glbMapping at h
    dsimp only at h
    by_cases hx : x.generatedLine = line ∧ x.generatedColumn ≤ col
    · rw [if_pos hx] at h
      cases hr : glbMapping rest line col with
      | none =>
        rw [hr] at h
        have h2 : some x = some m := h
        injection h2 with h2
        subst h2
        exact ⟨List.mem_cons_self x rest, hx.1, hx.2⟩
      | some b =>
        rw [hr] at h
        have h2 : (if b.generatedColumn < x.generatedColumn then some x else some b)
            = some m := h
        by_cases hc : b.generatedColumn < x.generatedColumn
        · rw [if_pos hc] at h2
          injection h2 with h2
          subst h2
          exact ⟨List.mem_cons_self x rest, hx.1, hx.2⟩
        · rw [if_neg hc] at h2
          injection h2 with h2
          subst h2
          obtain ⟨h1, h3, h4⟩ := ih b hr
          exact ⟨List.mem_cons_of_mem x h1, h3, h4⟩
    · rw [if_neg hx] at h
      obtain ⟨h1, h3, h4⟩ := ih m h
      exact ⟨List.mem_cons_of_mem x h1, h3, h4⟩

theorem glbMapping_maximal : ∀ (c : Consumer) (line col : Int) (m : Mapping),
    glbMapping c line col = some m →
    ∀ m' ∈ c, m'.generatedLine = line → m'.generatedColumn ≤ col →
      m'.generatedColumn ≤ m.generatedColumn := by
  intro c line col
  induction c with
  | nil =>
    intro m h
    simp [glbMapping] at h
  | cons x rest ih =>
    intro m h m' hm' hline hcol
    unfold glbMapping at h
    dsimp only at h
    rcases List.mem_cons.mp hm' with rfl | hm'
    · rw [if_pos ⟨hline, hcol⟩] at h
      cases hr : glbMapping rest line col with
      | none =>
        rw [hr] at h
        have h2 : some m' = some m := h
        injection h2 with h2
        subst h2
        exact le_refl _
      | some b =>
        rw [hr] at h
        have h2 : (if b.generatedColumn < m'.generatedColumn then some m' else some b)
            = some m := h
        by_cases hc : b.generatedColumn < m'.generatedColumn
        · rw [if_pos hc] at h2
          injection h2 with h2
          subst h2
          exact le_refl _
        · rw [if_neg hc] at h2
          injection h2 with h2
          subst h2
          omega
    · by_cases hx : x.generatedLine = line ∧ x.generatedColumn ≤ col
      · rw [if_pos hx] at h
        cases hr : glbMapping rest line col with
        | none =>
          exact absurd ⟨hline, hcol⟩ (glbMapping_none rest line col hr m' hm')
        | some b =>
          rw [hr] at h
          have h2 : (if b.generatedColumn < x.generatedColumn then some x else some b)
              = some m := h
          have hb := ih b hr m' hm' hline hcol
          by_cases hc : b.generatedColumn < x.generatedColumn
          · rw [if_pos hc] at h2
            injection h2 with h2
            subst h2
            omega
          · rw [if_neg hc] at h2
            injection h2 with h2
            subst h2
            exact hb
      · rw [if_neg hx] at h
        exact ih m h m' hm' hline hcol

theorem glbMapping_isSome (c : Consumer) (line col : Int) (m' : Mapping)
    (hm' : m' ∈ c) (hline : m'.generatedLine = line)
    (hcol : m'.generatedColumn ≤ col) :
    ∃ m, glbMapping c line col = some m := by
  cases h : glbMapping c line col with
  | some m => exact ⟨m, rfl⟩
  | none => exact absurd ⟨hline, hcol⟩ (glbMapping_none c line col h m' hm')

/-! ## C4: least-upper-bound lemmas -/

theorem lubOriginal_none (src : String) (line col : Int) :
    ∀ (c : Consumer), lubOriginal src line col c = none →
    ∀ m' ∈ c, ∀ ol oc, m'.original = some (src, ol, oc) →
      lexLE (line, col) (ol, oc) = true → False := by
  intro c
  induction c with
  | nil =>
    intro h m' hm'
    simp at hm'
  | cons x rest ih =>
    intro h m' hm' ol oc horig hle
    unfold lubOriginal at h
    dsimp only at h
    rcases List.mem_cons.mp hm' with rfl | hm'
    · rw [horig] at h
      have h2 : (if src = src ∧ lexLE (line, col) (ol, oc) = true then
          (match lubOriginal src line col rest with
           | none => some m'
           | some b => if lubBefore m' b = true then some m' else some b)
          else lubOriginal src line col rest) = none := h
      rw [if_pos ⟨rfl, hle⟩] at h2
      cases hr : lubOriginal src line col rest with
      | none =>
        rw [hr] at h2
        have h3 : some m' = (none : Option Mapping) := h2
        exact absurd h3 (by simp)
      | some b =>
        rw [hr] at h2
        have h3 : (if lubBefore m' b = true then some m' else some b)
            = (none : Option Mapping) := h2
        by_cases hc : lubBefore m' b = true
        · rw [if_pos hc] at h3
          exact absurd h3 (by simp)
        · rw [if_neg hc] at h3
          exact absurd h3 (by simp)
    · cases horigx : x.original with
      | none =>
        rw [horigx] at h
        exact ih h m' hm' ol oc horig hle
      | some s3 =>
        rcases s3 with ⟨s, ol3, oc3⟩
        rw [horigx] at h
        have h2 : (if s = src ∧ lexLE (line, col) (ol3, oc3) = true then
            (match lubOriginal src line col rest with
             | none => some x
             | some b => if lubBefore x b = true then some x else some b)
            else lubOriginal src line col rest) = none := h
        by_cases hcond : s = src ∧ lexLE (line, col) (ol3, oc3) = true
        · rw [if_pos hcond] at h2
          cases hr : lubOriginal src line col rest with
          | none =>
            exact ih hr m' hm' ol oc horig hle
          | some b =>
            rw [hr] at h2
            have h3 : (if lubBefore x b = true then some x else some b)
                = (none : Option Mapping) := h2
            by_cases hc : lubBefore x b = true
            · rw [if_pos hc] at h3
              exact absurd h3 (by simp)
            · rw [if_neg hc] at h3
              exact absurd h3 (by simp)
        · rw [if_neg hcond] at h2
          exact ih h2 m' hm' ol oc horig hle

theorem lubOriginal_spec (src : String) (line col : Int) :
    ∀ (c : Consumer) (m : Mapping), lubOriginal src line col c = some m →
    m ∈ c ∧ ∃ ol oc, m.original = some (src, ol, oc) ∧
      lexLE (line, col) (ol, oc) = true := by
  intro c
  induction c with
  | nil =>
    intro m h
    simp [lubOriginal] at h
  | cons x rest ih =>
    intro m h
    unfold lubOriginal at h
    dsimp only at h
    cases horigx : x.original with
    | none =>
      rw [horigx] at h
      obtain ⟨h1, h2⟩ := ih m h
      exact ⟨List.mem_cons_of_mem x h1, h2⟩
    | some s3 =>
      rcases s3 with ⟨s, ol3, oc3⟩
      rw [horigx] at h
      have h2 : (if s = src ∧ lexLE (line, col) (ol3, oc3) = true then
          (match lubOriginal src line col rest with
           | none => some x
           | some b => if lubBefore x b = true then some x else some b)
          else lubOriginal src line col rest) = some m := h
      by_cases hcond : s = src ∧ lexLE (line, col) (ol3, oc3) = true
      · rw [if_pos hcond] at h2
        cases hr : lubOriginal src line col rest with
        | none =>
          rw [hr] at h2
          have h3 : some x = some m := h2
          injection h3 with h3
          subst h3
          exact ⟨List.mem_cons_self x rest,
            ol3, oc3, by rw [horigx, hcond.1], hcond.2⟩
        | some b =>
          rw [hr] at h2
          have h3 : (if lubBefore x b = true then some x else some b) = some m := h2
          by_cases hc : lubBefore x b = true
          · rw [if_pos hc] at h3
            injection h3 with h3
            subst h3
            exact ⟨List.mem_cons_self x rest,
              ol3, oc3, by rw [horigx, hcond.1], hcond.2⟩
          · rw [if_neg hc] at h3
            injection h3 with h3
            subst h3
            obtain ⟨h1, h4⟩ := ih b hr
            exact ⟨List.mem_cons_of_mem x h1, h4⟩
      · rw [if_neg hcond] at h2
        obtain ⟨h1, h4⟩ := ih m h2
        exact ⟨List.mem_cons_of_mem x h1, h4⟩

theorem lubOriginal_minimal (src : String) (line col : Int) :
    ∀ (c : Consumer) (m : Mapping), lubOriginal src line col c = some m →
    ∀ m' ∈ c, ∀ ol' oc', m'.original = some (src, ol', oc') →
      lexLE (line, col) (ol', oc') = true →
      lexLE (origPosOf m) (ol', oc') = true := by
  intro c
  induction c with
  | nil =>
    intro m h
    simp [lubOriginal] at h
  | cons x rest ih =>
    intro m h m' hm' ol' oc' horig' hle'
    unfold lubOriginal at h
    dsimp only at h
    rcases List.mem_cons.mp hm' with rfl | hm'
    · rw [horig'] at h
      have h2 : (if src = src ∧ lexLE (line, col) (ol', oc') = true then
          (match lubOriginal src line col rest with
           | none => some m'
           | some b => if lubBefore m' b = true then some m' else some b)
          else lubOriginal src line col rest) = some m := h
      rw [if_pos ⟨rfl, hle'⟩] at h2
      cases hr : lubOriginal src line col rest with
      | none =>
        rw [hr] at h2
        have h3 : some m' = some m := h2
        injection h3 with h3
        subst h3
        rw [show origPosOf m' = (ol', oc') by unfold origPosOf; rw [horig']]
        exact lexLE_refl _
      | some b =>
        rw [hr] at h2
        have h3 : (if lubBefore m' b = true then some m' else some b) = some m := h2
        by_cases hc : lubBefore m' b = true
        · rw [if_pos hc] at h3
          injection h3 with h3
          subst h3
          rw [show origPosOf m' = (ol', oc') by unfold origPosOf; rw [horig']]
          exact lexLE_refl _
        · rw [if_neg hc] at h3
          injection h3 with h3
          subst h3
          have hble := not_lubBefore_le_orig m' b (bool_eq_false_of_not hc)
          rw [show origPosOf m' = (ol', oc') by unfold origPosOf; rw [horig']] at hble
          exact hble
    · cases horigx : x.original with
      | none =>
        rw [horigx] at h
        exact ih m h m' hm' ol' oc' horig' hle'
      | some s3 =>
        rcases s3 with ⟨s, ol3, oc3⟩
        rw [horigx] at h
        have h2 : (if s = src ∧ lexLE (line, col) (ol3, oc3) = true then
            (match lubOriginal src line col rest with
             | none => some x
             | some b => if lubBefore x b = true then some x else some b)
            else lubOriginal src line col rest) = some m := h
        by_cases hcond : s = src ∧ lexLE (line, col) (ol3, oc3) = true
        · rw [if_pos hcond] at h2
          cases hr : lubOriginal src line col rest with
          | none =>
            exact (lubOriginal_none src line col rest hr m' hm' ol' oc' horig' hle').elim
          | some b =>
            rw [hr] at h2
            have h3 : (if lubBefore x b = true then some x else some b) = some m := h2
            have hb := ih b hr m' hm' ol' oc' horig' hle'
            by_cases hc : lubBefore x b = true
            · rw [if_pos hc] at h3
              injection h3 with h3
              subst h3
              exact lexLE_trans (lubBefore_le_orig x b hc) hb
            · rw [if_neg hc] at h3
              injection h3 with h3
              subst h3
              exact hb
        · rw [if_neg hcond] at h2
          exact ih m h2 m' hm' ol' oc' horig' hle'

theorem lubOriginal_isSome (src : String) (line col : Int) (c : Consumer)
    (m' : Mapping) (hm' : m' ∈ c) (ol oc : Int)
    (horig : m'.original = some (src, ol, oc))
    (hle : lexLE (line, col) (ol, oc) = true) :
    ∃ m, lubOriginal src line col c = some m := by
  cases h : lubOriginal src line col c with
  | some m => exact ⟨m, rfl⟩
  | none => exact (lubOriginal_none src line col c h m' hm' ol oc horig hle).elim

/-! ## C4: the round trip -/

/-- C4: for a registered source map and a generated `(line, column)`
inside a range the map claims (there is a greatest-lower-bound mapping
`m` at the query minus the map's `lineOffset`), `findOriginalPosition`
subtracts the offset and returns `m`'s original position, and
`toGeneratedPosition` on that result adds the offset back and lands at
the start of a mapped range `m2` claiming the same original position as
`m` — the round trip holds up to mapping granularity (when several
mappings share an original position, the `LEAST_UPPER_BOUND` lookup may
pick a sibling range with that same original position).  Stated for a
state with this one registered map; with several overlapping maps the
source's last-match-wins iteration gives no per-map guarantee. -/
theorem c4_position_roundtrip (st : AdapterState) (url sid : String)
    (c : Consumer) (off gl gc : Int) (m : Mapping) (src : String) (ol oc : Int)
    (hmaps : st.sourceMaps = [⟨url, sid, c, off⟩])
    (haliases : st.sourceMapAliases = none)
    (hglb : glbMapping c (gl - off) gc = some m)
    (horig : m.original = some (src, ol, oc))
    (hdistinct : ∀ m1 ∈ c, ∀ m2 ∈ c, m1.generatedLine = m2.generatedLine →
      m1.generatedColumn = m2.generatedColumn → m1 = m2) :
    findOriginalPosition st sid gl gc = ⟨src, ol, oc, url⟩ ∧
    ∃ m2, m2 ∈ c ∧ m2.original = m.original ∧
      toGeneratedPosition st (findOriginalPosition st sid gl gc).sourceURL
          (findOriginalPosition st sid gl gc).lineNumber1Based
          (findOriginalPosition st sid gl gc).columnNumber0Based =
        some ⟨url, m2.generatedLine + off, m2.generatedColumn⟩ ∧
      glbMapping c (m2.generatedLine + off - off) m2.generatedColumn = some m2 := by
  obtain ⟨hmem, hgline, hgcol⟩ := glbMapping_spec c (gl - off) gc m hglb
  have hopf : originalPositionFor c (gl - off) gc = ⟨some src, some ol, some oc⟩ := by
    simp only [originalPositionFor, hglb, horig]
  have hcond : (sid == sid || compareIgnoringHost url sid) = true := by
    simp
  have hfop : findOriginalPosition st sid gl gc = ⟨src, ol, oc, url⟩ := by
    simp only [findOriginalPosition, hmaps, haliases, List.foldl_cons, List.foldl_nil,
      hcond, if_true, hopf, Option.getD_some, toAbsoluteFilePath]
  obtain ⟨m2, hl⟩ := lubOriginal_isSome src ol oc c m hmem ol oc horig (lexLE_refl _)
  obtain ⟨hm2mem, ol2, oc2, horig2, hge⟩ := lubOriginal_spec src ol oc c m2 hl
  have hmin := lubOriginal_minimal src ol oc c m2 hl m hmem ol oc horig (lexLE_refl _)
  have horigpos : origPosOf m2 = (ol2, oc2) := by
    unfold origPosOf
    rw [horig2]
  have heq : ((ol2, oc2) : Int × Int) = (ol, oc) :=
    lexLE_antisymm (horigpos ▸ hmin) hge
  have hol : ol2 = ol := congrArg Prod.fst heq
  have hoc : oc2 = oc := congrArg Prod.snd heq
  have horig2b : m2.original = some (src, ol, oc) := by
    rw [horig2, hol, hoc]
  have hsmfp : toSourceMapFilePath st.sourceMapAliases src = src := by
    rw [haliases]
    rfl
  have hgen : generatedPositionFor c (toSourceMapFilePath st.sourceMapAliases src)
      ol oc = some (m2.generatedLine, m2.generatedColumn) := by
    rw [hsmfp]
    unfold generatedPositionFor
    rw [hl]
    rfl
  have htgp : toGeneratedPosition st src ol oc =
      some ⟨url, m2.generatedLine + off, m2.generatedColumn⟩ := by
    simp only [toGeneratedPosition, hmaps, List.foldl_cons, List.foldl_nil, hgen]
    rfl
  obtain ⟨m3, hm3⟩ :=
    glbMapping_isSome c m2.generatedLine m2.generatedColumn m2 hm2mem rfl le_rfl
  obtain ⟨hm3mem, hm3line, hm3col⟩ :=
    glbMapping_spec c m2.generatedLine m2.generatedColumn m3 hm3
  have hcolge :=
    glbMapping_maximal c m2.generatedLine m2.generatedColumn m3 hm3 m2 hm2mem rfl le_rfl
  have hm3eq : m3 = m2 := hdistinct m3 hm3mem m2 hm2mem hm3line (by omega)
  have harith : m2.generatedLine + off - off = m2.generatedLine := by omega
  refine ⟨hfop, m2, hm2mem, ?_, ?_, ?_⟩
  · rw [horig2b, horig]
  · rw [hfop]
    exact htgp
  · rw [harith]
    exact hm3eq ▸ hm3

/-- A two-range consumer for the round-trip witness. -/
def consumerC4 : Consumer :=
  [⟨1, 0, some ("a.js", 1, 0)⟩, ⟨2, 0, some ("a.js", 3, 1)⟩]

/-- A state with one registered source map carrying line offset 3. -/
def stC4 : AdapterState :=
  { initialState none 0 with
    sourceMaps := [⟨"http://localhost:8081/app.bundle", "42", consumerC4, 3⟩] }

/-- Closed instance of C4: the query `(5, 7)` (line 2 after the offset)
is claimed by the second range; the round trip returns to that range's
start with the offset added back. -/
theorem c4_witness :
    glbMapping consumerC4 (5 - 3) 7 = some (⟨2, 0, some ("a.js", 3, 1)⟩ : Mapping) ∧
    (findOriginalPosition stC4 "42" 5 7 =
        ⟨"a.js", 3, 1, "http://localhost:8081/app.bundle"⟩ ∧
      ∃ m2, m2 ∈ consumerC4 ∧
        m2.original = (⟨2, 0, some ("a.js", 3, 1)⟩ : Mapping).original ∧
        toGeneratedPosition stC4 (findOriginalPosition stC4 "42" 5 7).sourceURL
            (findOriginalPosition stC4 "42" 5 7).lineNumber1Based
            (findOriginalPosition stC4 "42" 5 7).columnNumber0Based =
          some ⟨"http://localhost:8081/app.bundle", m2.generatedLine + 3,
            m2.generatedColumn⟩ ∧
        glbMapping consumerC4 (m2.generatedLine + 3 - 3) m2.generatedColumn
          = some m2) :=
  ⟨by decide,
   c4_position_roundtrip stC4 "http://localhost:8081/app.bundle" "42" consumerC4
     3 5 7 ⟨2, 0, some ("a.js", 3, 1)⟩ "a.js" 3 1 rfl rfl (by decide) (by decide)
     (by decide)⟩

/-- Closed instance of C3: a main-bundle map without `__env__` and a
configured prelude line count of 5 stores `lineOffset = 5`. -/
theorem c3_witness :
    ∃ entry : SourceMapEntry,
      ((handleScriptParsed (initialState none 5) oracleNone "u" "s"
        (some ⟨["foo__prelude__bar", "a.js"], []⟩)).1).sourceMaps.getLast?
        = some entry ∧
      entry.lineOffset = 5 := by
  obtain ⟨entry, h1, h2, h3, h4, h5, h6⟩ :=
    c3_scriptParsed_lineOffset (initialState none 5) oracleNone "u" "s"
      ⟨["foo__prelude__bar", "a.js"], []⟩
  exact ⟨entry, h1, h5 (by decide)⟩

/-- A state with one source map registered under the localhost URL. -/
def stC5 : AdapterState :=
  { initialState none 0 with
    sourceMaps := [⟨"http://localhost:8080/index.bundle", "7", [], 0⟩] }

/-- Closed instance of C5: the device-reported URL
`http://10.0.2.2:8081/index.bundle` is matched against the map
registered under `http://localhost:8080/index.bundle`. -/
theorem c5_witness :
    compareIgnoringHost "http://localhost:8080/index.bundle"
      "http://10.0.2.2:8081/index.bundle" = true ∧
    findOriginalPosition stC5 "http://10.0.2.2:8081/index.bundle" 7 2 =
      findOriginalPosition stC5 "http://localhost:8080/index.bundle" 7 2 := by
  have h := c5_host_port_insensitive "http://localhost:8080/index.bundle"
    "http://10.0.2.2:8081/index.bundle"
    ⟨"http", "localhost", "8080", "/index.bundle"⟩
    ⟨"http", "10.0.2.2", "8081", "/index.bundle"⟩
    (by decide) (by decide) rfl rfl
  exact ⟨h.1, h.2 stC5 "7" [] 0 7 2 rfl⟩

/-- Closed instance of C8: the invariant holds after a concrete
request/reload sequence. -/
theorem c8_witness :
    VerifiedImpliesId (runEvents (initialState none 0)
      [AdapterEvent.setBPs oracleNone "f.js" (some [⟨1, none⟩])]) :=
  c8_verified_breakpoints_have_ids none 0
    [AdapterEvent.setBPs oracleNone "f.js" (some [⟨1, none⟩])]

end RadonDebugAdapter
